import Mathlib

/-!
Verification of the incremental SEARCH/REPLACE diff applicator.

The development shallowly embeds the diff engine: the Boyer-Moore exact
search, the line-trimmed and block-anchor fallback matchers, the
`LineIndex` acceleration structure, and the streaming processor
`constructNewFileContent`.  JavaScript strings are modelled as lists of
characters; string indices are modelled as `Int` where the source can
produce negative values (JS `slice` accepts them), and as `Nat` where it
cannot.  Fallible code returns `Except`/`Option`.
-/

set_option maxHeartbeats 1000000

/-- Characters of a JavaScript string, modelled as a list of characters. -/
abbrev Str := List Char

namespace Percy

/-- JS `s.split("\n")`: split on every newline, keeping empty segments. -/
def splitNl : Str → List Str
  | [] => [[]]
  | c :: rest =>
    if c = '\n' then [] :: splitNl rest
    else
      match splitNl rest with
      | [] => [[c]]
      | l :: ls => (c :: l) :: ls

/-- JS `lines.join("\n")`: interleave a newline between consecutive segments. -/
def joinNl : List Str → Str
  | [] => []
  | [l] => l
  | l :: ls => l ++ '\n' :: joinNl ls

/-- ASCII whitespace recognised by the `trim` operations. -/
def isWs (c : Char) : Bool :=
  c == ' ' || c == '\t' || c == '\n' || c == '\r' || c == '\x0b' || c == '\x0c'

/-- Strip leading whitespace. -/
def trimStart (s : Str) : Str := s.dropWhile isWs

/-- Strip trailing whitespace (JS `trimEnd`). -/
def trimEndStr (s : Str) : Str := (s.reverse.dropWhile isWs).reverse

/-- JS `s.trim()`. -/
def trimStr (s : Str) : Str := trimEndStr (trimStart s)

/-- Resolve a possibly-negative JS slice index against a length. -/
def jsIdx (len : Nat) (i : Int) : Nat :=
  if i < 0 then ((len : Int) + i).toNat else min i.toNat len

/-- JS `s.slice(a, b)` with full negative-index semantics. -/
def jsSlice (s : Str) (a b : Int) : Str :=
  (s.take (jsIdx s.length b)).drop (jsIdx s.length a)

/-- JS `s[i]`: `undefined` (here `none`) outside the valid range. -/
def jsCharAt (s : Str) (i : Int) : Option Char :=
  if 0 ≤ i ∧ i < (s.length : Int) then s[i.toNat]? else none

/-- JS `hay.includes(pat)`. -/
def containsSub : Str → Str → Bool
  | [], pat => pat.isPrefixOf ([] : Str)
  | c :: t, pat => pat.isPrefixOf (c :: t) || containsSub t pat

/-- JS `hay.indexOf(pat)`, as an option (the caller turns `none` into `-1`). -/
def subIndex? : Str → Str → Option Nat
  | [], pat => if pat.isPrefixOf ([] : Str) then some 0 else none
  | c :: t, pat =>
    if pat.isPrefixOf (c :: t) then some 0 else (subIndex? t pat).map (· + 1)

/-- Bad-character table of the source's Boyer-Moore: for `c` the value
`pattern.length - 1 - i` where `i` is the last index below
`pattern.length - 1` with `pattern[i] = c` (later entries overwrite
earlier ones, as `Map.set` does). -/
def bmBadChar (pattern : Str) (c : Char) : Option Nat :=
  (List.range (pattern.length - 1)).foldl
    (fun acc i => if pattern[i]? = some c then some (pattern.length - 1 - i) else acc) none

/-- Right-to-left comparison loop of Boyer-Moore: called with `j + 1`,
compares `pattern[j]` with `text[offset + j]` and walks down; `none`
means the whole window matched, `some j` is the mismatch position. -/
def bmScan (text pattern : Str) (offset : Int) : Nat → Option Nat
  | 0 => none
  | j + 1 =>
    if jsCharAt pattern (j : Int) = jsCharAt text (offset + (j : Int)) then
      bmScan text pattern offset j
    else some j

/-- Main Boyer-Moore window loop.  The `fuel` argument bounds the number of
iterations of the source's `while` loop; the caller passes one more than
the largest possible number of window positions, so the `0` case is never
reached on the loop's own account. -/
def bmLoop (text pattern : Str) : Nat → Int → Int
  | 0, _ => -1
  | fuel + 1, offset =>
    if offset ≤ (text.length : Int) - (pattern.length : Int) then
      match bmScan text pattern offset pattern.length with
      | none => offset
      | some j =>
        let shift : Nat :=
          match jsCharAt text (offset + (j : Int)) with
          | some c => (bmBadChar pattern c).getD pattern.length
          | none => pattern.length
        bmLoop text pattern fuel (offset + (max 1 shift : Nat))
    else -1

/-- The source's `boyerMooreSearch(text, pattern, startPos)`. -/
def boyerMooreSearch (text pattern : Str) (startPos : Int) : Int :=
  if pattern.length = 0 then startPos
  else if (pattern.length : Int) > (text.length : Int) - startPos then -1
  else
    bmLoop text pattern
      (((text.length : Int) - (pattern.length : Int) + 1 - startPos).toNat + 1) startPos

/-- `LineIndex.SIZE_THRESHOLD` (1 MiB). -/
def SIZE_THRESHOLD : Nat := 1024 * 1024

/-- `LineIndex.shouldUseIndex(content)`. -/
def shouldUseIndex (content : Str) : Bool := SIZE_THRESHOLD < content.length

/-- Cumulative line offsets as built by `LineIndex.buildIndex`: each line
contributes `length + 1`, and a final entry is appended after the loop. -/
def buildOffsets : List Str → Nat → List Nat
  | [], off => [off]
  | l :: ls, off => off :: buildOffsets ls (off + l.length + 1)

/-- The `LineIndex` class: raw lines and the line-to-offset table.  The
`contentToPositions` map is modelled functionally by
`LineIndex.getPositionsForLine`. -/
structure LineIndex where
  lines : List Str
  lineToOffset : List Nat
deriving DecidableEq

/-- The `LineIndex` constructor (`buildIndex`). -/
def LineIndex.build (content : Str) : LineIndex :=
  { lines := splitNl content, lineToOffset := buildOffsets (splitNl content) 0 }

def LineIndex.getLineCount (li : LineIndex) : Nat := li.lines.length

/-- `getOffsetForLine`: `this.lineToOffset[lineNumber] || 0`. -/
def LineIndex.getOffsetForLine (li : LineIndex) (i : Nat) : Nat :=
  (li.lineToOffset[i]?).getD 0

/-- `getLineAt`: `this.lines[lineNumber] || ""`. -/
def LineIndex.getLineAt (li : LineIndex) (i : Nat) : Str :=
  (li.lines[i]?).getD []

/-- `getPositionsForLine`: the positions map is keyed on the trimmed line
and lists line numbers in ascending order. -/
def LineIndex.getPositionsForLine (li : LineIndex) (lineContent : Str) : List Nat :=
  (List.range li.lines.length).filter
    (fun i => trimStr (li.getLineAt i) == trimStr lineContent)

/-- Full verification of a candidate position in `findExactMatch`. -/
def liFullMatch (li : LineIndex) (searchLines : List Str) (pos : Nat) : Bool :=
  (List.range searchLines.length).all (fun i =>
    decide (pos + i < li.lines.length) &&
      (trimStr (li.getLineAt (pos + i)) == trimStr (searchLines.getD i [])))

/-- `LineIndex.findPotentialMatches`. -/
def LineIndex.findPotentialMatches (li : LineIndex) (searchLines : List Str)
    (startLinePos : Nat) : List Nat :=
  if searchLines.length = 0 then [0]
  else if searchLines.length = 1 then
    (li.getPositionsForLine (searchLines.getD 0 [])).filter
      (fun pos => decide (startLinePos ≤ pos))
  else
    let firstLine := trimStr (searchLines.getD 0 [])
    let lastLine := trimStr (searchLines.getLastD [])
    let firstLinePositions :=
      (li.getPositionsForLine firstLine).filter (fun pos => decide (startLinePos ≤ pos))
    if firstLinePositions.isEmpty then []
    else
      firstLinePositions.filter (fun pos =>
        decide (pos + searchLines.length - 1 < li.lines.length) &&
          (trimStr (li.getLineAt (pos + searchLines.length - 1)) == lastLine))

/-- `LineIndex.findExactMatch`. -/
def LineIndex.findExactMatch (li : LineIndex) (searchLines : List Str)
    (startLinePos : Nat) : Option (Nat × Nat) :=
  match (li.findPotentialMatches searchLines startLinePos).find?
      (fun pos => liFullMatch li searchLines pos) with
  | none => none
  | some pos =>
    let startOffset := li.getOffsetForLine pos
    let endOffset :=
      if pos + searchLines.length < li.lines.length then
        li.getOffsetForLine (pos + searchLines.length)
      else
        li.getOffsetForLine (li.lines.length - 1) +
          (li.getLineAt (li.lines.length - 1)).length + 1
    some (startOffset, endOffset)

/-- The start-line computation both matchers run on the indexed path:
take the first line whose offset is at or past `startIndex` and step one
line back (clamped at 0); 0 when no such line exists. -/
def indexedStartLine (li : LineIndex) (startIndex : Int) : Nat :=
  match (List.range li.getLineCount).find?
      (fun i => decide (startIndex ≤ (li.getOffsetForLine i : Int))) with
  | some i => i - 1
  | none => 0

/-- The start-line computation of the direct (unindexed) path: walk lines
accumulating `length + 1` while the running offset is below `startIndex`. -/
def directStartLine : List Str → Int → Int → Nat → Nat
  | [], _, _, acc => acc
  | l :: rest, startIndex, currentIndex, acc =>
    if currentIndex < startIndex then
      directStartLine rest startIndex (currentIndex + (l.length : Int) + 1) (acc + 1)
    else acc

/-- Character offset of the start of line `m`: the sum of `length + 1`
over the preceding lines. -/
def offUpTo (lines : List Str) (m : Nat) : Nat :=
  ((lines.take m).map (fun l => l.length + 1)).sum

/-- The candidate positions the direct path's hash map yields for a key:
line numbers in `[startLineNum, n - k]` whose trimmed line equals the key,
in ascending order. -/
def directPositions (originalLines : List Str) (startLineNum k : Nat) (key : Str) : List Nat :=
  (List.range originalLines.length).filter (fun i =>
    decide (startLineNum ≤ i) && decide (i + k ≤ originalLines.length) &&
      (trimStr (originalLines.getD i []) == key))

/-- Full trim-compare of all search lines at a candidate position. -/
def directFullMatch (originalLines searchLines : List Str) (pos : Nat) : Bool :=
  (List.range searchLines.length).all (fun j =>
    trimStr (originalLines.getD (pos + j) []) == trimStr (searchLines.getD j []))

/-- End offset computed by the direct matchers: the start offset plus
`length + 1` over the matched original lines. -/
def directEnd (originalLines : List Str) (pos k : Nat) : Nat :=
  offUpTo originalLines pos +
    (((List.range k).map (fun j => (originalLines.getD (pos + j) []).length + 1)).sum)

/-- Core scan of the direct path of `lineTrimmedFallbackMatch`, after the
split and the trailing-empty-line pop: early last-line pruning, then the
first fully matching candidate. -/
def lineTrimmedScan (originalLines searchLines : List Str) (startLineNum : Nat) :
    Option (Nat × Nat) :=
  let n := originalLines.length
  let k := searchLines.length
  let potentialStartPositions :=
    directPositions originalLines startLineNum k (trimStr (searchLines.getD 0 []))
  let earlyOk :=
    if 1 < k then
      if potentialStartPositions.isEmpty then false
      else
        potentialStartPositions.any (fun p =>
          decide (p + k - 1 < n) &&
            (trimStr (originalLines.getD (p + k - 1) []) ==
              trimStr (searchLines.getLastD [])))
    else true
  if earlyOk then
    match potentialStartPositions.find? (directFullMatch originalLines searchLines) with
    | none => none
    | some pos => some (offUpTo originalLines pos, directEnd originalLines pos k)
  else none

/-- Direct (unindexed) path of `lineTrimmedFallbackMatch`. -/
def lineTrimmedDirect (originalContent searchContent : Str) (startIndex : Int) :
    Option (Nat × Nat) :=
  let originalLines := splitNl originalContent
  let searchLines0 := splitNl searchContent
  if searchLines0.length = 0 || originalLines.length = 0 then none
  else
    let searchLines :=
      if searchLines0.getLastD [] == ([] : Str) then searchLines0.dropLast else searchLines0
    if searchLines.length = 0 then none
    else lineTrimmedScan originalLines searchLines (directStartLine originalLines startIndex 0 0)

/-- Indexed path of `lineTrimmedFallbackMatch`. -/
def lineTrimmedIndexed (li : LineIndex) (searchContent : Str) (startIndex : Int) :
    Option (Nat × Nat) :=
  let searchLines0 := splitNl searchContent
  let searchLines :=
    if 0 < searchLines0.length && searchLines0.getLastD [] == ([] : Str) then
      searchLines0.dropLast
    else searchLines0
  if searchLines.length = 0 then none
  else li.findExactMatch searchLines (indexedStartLine li startIndex)

/-- The source's `lineTrimmedFallbackMatch(original, search, startIndex, lineIndex?)`. -/
def lineTrimmedFallbackMatch (originalContent searchContent : Str) (startIndex : Int)
    (lineIndex : Option LineIndex) : Option (Nat × Nat) :=
  match lineIndex with
  | some li =>
    if shouldUseIndex originalContent then lineTrimmedIndexed li searchContent startIndex
    else lineTrimmedDirect originalContent searchContent startIndex
  | none => lineTrimmedDirect originalContent searchContent startIndex

/-- Core scan of the direct path of `blockAnchorFallbackMatch`: the first
line at or after `startLineNum` where the trimmed first and last anchor
lines match at distance `searchLines.length`. -/
def blockAnchorScan (originalLines searchLines : List Str) (startLineNum : Nat) :
    Option (Nat × Nat) :=
  let firstLineSearch := trimStr (searchLines.getD 0 [])
  let lastLineSearch := trimStr (searchLines.getLastD [])
  let searchBlockSize := searchLines.length
  let n := originalLines.length
  match (List.range n).find? (fun i =>
      decide (startLineNum ≤ i) && decide (i + searchBlockSize ≤ n) &&
        (trimStr (originalLines.getD i []) == firstLineSearch) &&
        (trimStr (originalLines.getD (i + searchBlockSize - 1) []) == lastLineSearch)) with
  | none => none
  | some i => some (offUpTo originalLines i, directEnd originalLines i searchBlockSize)

/-- Direct (unindexed) path of `blockAnchorFallbackMatch`. -/
def blockAnchorDirect (originalContent searchContent : Str) (startIndex : Int) :
    Option (Nat × Nat) :=
  let originalLines := splitNl originalContent
  let searchLines0 := splitNl searchContent
  if searchLines0.length < 3 then none
  else
    let searchLines :=
      if searchLines0.getLastD [] == ([] : Str) then searchLines0.dropLast else searchLines0
    blockAnchorScan originalLines searchLines (directStartLine originalLines startIndex 0 0)

/-- Core scan of the indexed path of `blockAnchorFallbackMatch`. -/
def blockAnchorIndexScan (li : LineIndex) (searchLines : List Str) (startLineNum : Nat) :
    Option (Nat × Nat) :=
  let firstLine := trimStr (searchLines.getD 0 [])
  let lastLine := trimStr (searchLines.getLastD [])
  let firstLinePositions :=
    (li.getPositionsForLine firstLine).filter (fun pos => decide (startLineNum ≤ pos))
  match firstLinePositions.find? (fun pos =>
      decide (pos + searchLines.length - 1 < li.getLineCount) &&
        (trimStr (li.getLineAt (pos + searchLines.length - 1)) == lastLine)) with
  | none => none
  | some pos =>
    some (li.getOffsetForLine pos, li.getOffsetForLine (pos + searchLines.length - 1 + 1))

/-- Indexed path of `blockAnchorFallbackMatch`. -/
def blockAnchorIndexed (li : LineIndex) (searchContent : Str) (startIndex : Int) :
    Option (Nat × Nat) :=
  let searchLines0 := splitNl searchContent
  if searchLines0.length < 3 then none
  else
    let searchLines :=
      if 0 < searchLines0.length && searchLines0.getLastD [] == ([] : Str) then
        searchLines0.dropLast
      else searchLines0
    blockAnchorIndexScan li searchLines (indexedStartLine li startIndex)

/-- The source's `blockAnchorFallbackMatch(original, search, startIndex, lineIndex?)`. -/
def blockAnchorFallbackMatch (originalContent searchContent : Str) (startIndex : Int)
    (lineIndex : Option LineIndex) : Option (Nat × Nat) :=
  match lineIndex with
  | some li =>
    if shouldUseIndex originalContent then blockAnchorIndexed li searchContent startIndex
    else blockAnchorDirect originalContent searchContent startIndex
  | none => blockAnchorDirect originalContent searchContent startIndex

/-- Marker line opening a block. -/
def markerSearch : Str := "<<<<<<< SEARCH".data

/-- Marker line separating search and replace sections. -/
def markerSep : Str := "=======".data

/-- Marker line closing a block. -/
def markerReplace : Str := ">>>>>>> REPLACE".data

/-- A change region in result coordinates, as recorded by the processor. -/
structure ChangeRegion where
  startLine : Nat
  endLine : Nat
  startOffset : Int
  endOffset : Int
deriving DecidableEq

/-- Ghost record of one closed block: the match range committed at the
`>>>>>>> REPLACE` line and the replacement text emitted for the block.
Pure instrumentation; it does not influence the computation. -/
structure AppliedBlock where
  matchStart : Int
  matchEnd : Int
  replaced : Str
deriving DecidableEq

/-- The source's `FileChangeResult`, extended with the ghost trace of
applied blocks used only to state theorems. -/
structure FileChangeResult where
  content : Str
  changedRegions : List ChangeRegion
  trace : List AppliedBlock
deriving DecidableEq

/-- `getLineNumberFromOffset(content, offset)`: newlines in `content.slice(0, offset)`. -/
def getLineNumberFromOffset (content : Str) (offset : Int) : Nat :=
  (jsSlice content 0 offset).count '\n'

/-- `StringBuilder.appendSlice(source, start, stop)` applied to an
accumulated string: appends `source.slice(start, stop)` when `start < stop`. -/
def appendSlice (acc source : Str) (start stop : Int) : Str :=
  if start < stop then acc ++ jsSlice source start stop else acc

/-- Mutable state of `constructNewFileContent`, plus the ghost trace. -/
structure PState where
  result : Str
  lastProcessedIndex : Int
  changedRegions : List ChangeRegion
  resultLength : Int
  searchSegments : List Str
  replaceSegments : List Str
  inSearch : Bool
  inReplace : Bool
  searchMatchIndex : Int
  searchEndIndex : Int
  replacementStartOffset : Int
  trace : List AppliedBlock
  curEmit : Str

/-- Initial processor state. -/
def initPState : PState :=
  { result := [], lastProcessedIndex := 0, changedRegions := [], resultLength := 0,
    searchSegments := [], replaceSegments := [], inSearch := false, inReplace := false,
    searchMatchIndex := -1, searchEndIndex := -1, replacementStartOffset := -1,
    trace := [], curEmit := [] }

/-- The NoMatch error message thrown when all three matchers fail. -/
def noMatchMsg (reportedSearch : Str) : Str :=
  "The SEARCH block:\n".data ++ reportedSearch ++
    "\n...does not match anything in the file.".data

/-- Search content finalisation at a `=======` line:
`searchSegments.join("\n")` plus a trailing newline when non-empty. -/
def currentSearch (segs : List Str) : Str :=
  if 0 < segs.length then joinNl segs ++ ['\n'] else joinNl segs

/-- Match selection run at a `=======` line (the body of the marker branch
before output): empty-search edge cases, then the ExactMatch,
LineTrimmedMatch, BlockAnchorMatch ladder, and the NoMatch error. -/
def resolveSearchMatch (originalContent : Str) (lastProcessedIndex : Int)
    (currentSearchContent : Str) (lineIndex : Option LineIndex) :
    Except Str (Int × Int) :=
  if currentSearchContent.isEmpty then
    if originalContent.length = 0 then .ok (0, 0)
    else .ok (0, (originalContent.length : Int))
  else
    let exactIndex := boyerMooreSearch originalContent currentSearchContent lastProcessedIndex
    if exactIndex ≠ -1 then .ok (exactIndex, exactIndex + (currentSearchContent.length : Int))
    else
      match lineTrimmedFallbackMatch originalContent currentSearchContent
          lastProcessedIndex lineIndex with
      | some (s, e) => .ok ((s : Int), (e : Int))
      | none =>
        match blockAnchorFallbackMatch originalContent currentSearchContent
            lastProcessedIndex lineIndex with
        | some (s, e) => .ok ((s : Int), (e : Int))
        | none => .error (noMatchMsg (trimEndStr currentSearchContent))

/-- Read-only data of one `constructNewFileContent` call. -/
structure PCtx where
  diffContent : Str
  originalContent : Str
  isFinal : Bool
  lineIndex : Option LineIndex

/-- `diffContent.slice(diffContent.indexOf(">>>>>>> REPLACE") + 15)`:
the text after the first occurrence of the replace marker (the source
always uses the first occurrence, `indexOf` giving `-1` when absent). -/
def remainingAfterFirstReplace (diffContent : Str) : Str :=
  jsSlice diffContent
    ((match subIndex? diffContent markerReplace with
      | some m => (m : Int)
      | none => -1) + (markerReplace.length : Int))
    (diffContent.length : Int)

/-- The state after the `>>>>>>> REPLACE` branch commits a block whose
match guards hold: the change region is pushed, the cursor advances to
`searchEndIndex`, and the per-block state resets. -/
def closeBlockState (s : PState) : PState :=
  { result := s.result, lastProcessedIndex := s.searchEndIndex,
    changedRegions := s.changedRegions ++
      [{ startLine := getLineNumberFromOffset s.result s.replacementStartOffset,
         endLine := getLineNumberFromOffset s.result s.resultLength,
         startOffset := s.replacementStartOffset, endOffset := s.resultLength }],
    resultLength := s.resultLength, searchSegments := [], replaceSegments := [],
    inSearch := false, inReplace := false, searchMatchIndex := -1, searchEndIndex := -1,
    replacementStartOffset := -1,
    trace := s.trace ++ [⟨s.searchMatchIndex, s.searchEndIndex, s.curEmit⟩],
    curEmit := [] }

/-- Finalisation applied when the processor returns: append the remaining
original content when the cursor is before its end. -/
def finishResult (ctx : PCtx) (s : PState) : FileChangeResult :=
  { content :=
      (if s.lastProcessedIndex < (ctx.originalContent.length : Int) then
        appendSlice s.result ctx.originalContent s.lastProcessedIndex
          (ctx.originalContent.length : Int)
      else s.result),
    changedRegions := s.changedRegions, trace := s.trace }

/-- Outcome of processing one line: continue, return early, or throw. -/
inductive StepOut where
  | cont (s : PState)
  | finished (r : FileChangeResult)
  | err (msg : Str)

/-- One iteration of the processor's `for (const line of lines)` loop. -/
def stepLine (ctx : PCtx) (s : PState) (line : Str) : StepOut :=
  if line = markerSearch then
    let s1 :=
      if s.inSearch || s.inReplace then
        { s with inSearch := false, inReplace := false,
                 searchSegments := [], replaceSegments := [] }
      else s
    .cont { s1 with inSearch := true }
  else if line = markerSep then
    let s1 := { s with inSearch := false, inReplace := true }
    let csc := currentSearch s.searchSegments
    match resolveSearchMatch ctx.originalContent s.lastProcessedIndex csc ctx.lineIndex with
    | .error m => .err m
    | .ok (smi, sei) =>
      let s2 :=
        if s1.lastProcessedIndex < smi then
          { s1 with
            result := appendSlice s1.result ctx.originalContent s1.lastProcessedIndex smi,
            resultLength := s1.resultLength + (smi - s1.lastProcessedIndex) }
        else s1
      .cont { s2 with searchMatchIndex := smi, searchEndIndex := sei,
                      replacementStartOffset := s2.resultLength, curEmit := [] }
  else if line = markerReplace then
    let replacementEndOffset := s.resultLength
    let regions :=
      if s.searchMatchIndex ≠ -1 ∧ s.replacementStartOffset ≠ -1 then
        s.changedRegions ++
          [{ startLine := getLineNumberFromOffset s.result s.replacementStartOffset,
             endLine := getLineNumberFromOffset s.result replacementEndOffset,
             startOffset := s.replacementStartOffset,
             endOffset := replacementEndOffset }]
      else s.changedRegions
    let s1 : PState :=
      { result := s.result, lastProcessedIndex := s.searchEndIndex,
        changedRegions := regions, resultLength := s.resultLength,
        searchSegments := [], replaceSegments := [], inSearch := false, inReplace := false,
        searchMatchIndex := -1, searchEndIndex := -1, replacementStartOffset := -1,
        trace := s.trace ++ [⟨s.searchMatchIndex, s.searchEndIndex, s.curEmit⟩],
        curEmit := [] }
    if ctx.isFinal then
      if containsSub (remainingAfterFirstReplace ctx.diffContent) markerSearch then .cont s1
      else .finished (finishResult ctx s1)
    else .cont s1
  else
    if s.inSearch then .cont { s with searchSegments := s.searchSegments ++ [line] }
    else if s.inReplace then
      let s1 := { s with replaceSegments := s.replaceSegments ++ [line] }
      if s.searchMatchIndex ≠ -1 then
        .cont { s1 with result := s1.result ++ line ++ ['\n'],
                        resultLength := s1.resultLength + (line.length : Int) + 1,
                        curEmit := s1.curEmit ++ line ++ ['\n'] }
      else .cont s1
    else .cont s

/-- Run the processor loop over the remaining lines. -/
def runLines (ctx : PCtx) : List Str → PState → Except Str (PState ⊕ FileChangeResult)
  | [], s => .ok (.inl s)
  | l :: ls, s =>
    match stepLine ctx s l with
    | .cont s1 => runLines ctx ls s1
    | .finished r => .ok (.inr r)
    | .err m => .error m

/-- Does the line start with `<`, `=` or `>` (partial-marker stripping)? -/
def startsMarkerChar (line : Str) : Bool :=
  match line with
  | [] => false
  | c :: _ => c == '<' || c == '=' || c == '>'

/-- The source's `constructNewFileContent(diffContent, originalContent, isFinal)`. -/
def constructNewFileContent (diffContent originalContent : Str) (isFinal : Bool) :
    Except Str FileChangeResult :=
  let lineIndex :=
    if shouldUseIndex originalContent then some (LineIndex.build originalContent) else none
  let lines0 := splitNl diffContent
  let lastLine := lines0.getLastD []
  let lines :=
    if 0 < lines0.length ∧ startsMarkerChar lastLine = true ∧ lastLine ≠ markerSearch ∧
        lastLine ≠ markerSep ∧ lastLine ≠ markerReplace then
      lines0.dropLast
    else lines0
  if isFinal = true ∧ containsSub diffContent markerSearch = false then
    .ok { content :=
            (if (0 : Int) < (originalContent.length : Int) then
              appendSlice [] originalContent 0 (originalContent.length : Int)
            else []),
          changedRegions := [], trace := [] }
  else
    match runLines ⟨diffContent, originalContent, isFinal, lineIndex⟩ lines initPState with
    | .error m => .error m
    | .ok (.inr r) => .ok r
    | .ok (.inl s) =>
      .ok { content :=
              (if isFinal = true ∧ s.lastProcessedIndex < (originalContent.length : Int) then
                appendSlice s.result originalContent s.lastProcessedIndex
                  (originalContent.length : Int)
              else s.result),
            changedRegions := s.changedRegions, trace := s.trace }

/-- Slice of a string between two character offsets (no negative indices). -/
def sliceNat (s : Str) (a b : Nat) : Str := (s.drop a).take (b - a)

/-- One SEARCH/REPLACE block, given by its search lines and replace lines. -/
structure SRBlock where
  search : List Str
  replace : List Str

/-- The marker lines and content lines of one rendered block. -/
def blockLines (b : SRBlock) : List Str :=
  markerSearch :: (b.search ++ markerSep :: (b.replace ++ [markerReplace]))

/-- The lines of a diff made of well-formed blocks, each marker terminated
by a newline (hence a final empty segment). -/
def diffLinesOf (blocks : List SRBlock) : List Str :=
  (blocks.map blockLines).flatten ++ [[]]

/-- The rendered diff text of a list of blocks. -/
def renderDiff (blocks : List SRBlock) : Str := joinNl (diffLinesOf blocks)

/-- The text the processor emits for a replace section: every line
followed by a newline. -/
def renderBody (lines : List Str) : Str := (lines.map (fun l => l ++ ['\n'])).flatten

/-- A content line of a block: no embedded newline and not a marker line. -/
def goodLine (l : Str) : Prop :=
  '\n' ∉ l ∧ l ≠ markerSearch ∧ l ≠ markerSep ∧ l ≠ markerReplace

/-- Well-formedness of a block's lines. -/
def goodBlock (b : SRBlock) : Prop :=
  (∀ l ∈ b.search, goodLine l) ∧ (∀ l ∈ b.replace, goodLine l)

/-- The concatenation the spec's invariant I4 describes: untouched slices
of the original interleaved with the replacements of the applied blocks. -/
def interleave (original : Str) : Int → List AppliedBlock → Str
  | cur, [] => jsSlice original cur (original.length : Int)
  | cur, b :: bs =>
    jsSlice original cur b.matchStart ++ b.replaced ++ interleave original b.matchEnd bs

/-- The applied blocks have their matched ranges in left-to-right order
starting at or after `cur` and ending within the original. -/
def TraceOrdered (original : Str) : Int → List AppliedBlock → Prop
  | cur, [] => cur ≤ (original.length : Int)
  | cur, b :: bs =>
    cur ≤ b.matchStart ∧ b.matchStart ≤ b.matchEnd ∧ TraceOrdered original b.matchEnd bs

/-- A content larger than the 1 MiB threshold: the line `"x"` followed by
one line of `SIZE_THRESHOLD` copies of `y`. -/
def bigOriginal : Str := 'x' :: '\n' :: List.replicate SIZE_THRESHOLD 'y'

/-- A processor state between blocks: no section open, per-block registers
reset.  Both `initPState` and the state left by a committed block have this
shape. -/
def cleanState (result : Str) (cur : Int) (regs : List ChangeRegion)
    (rlen : Int) (tr : List AppliedBlock) : PState :=
  { result := result, lastProcessedIndex := cur, changedRegions := regs,
    resultLength := rlen, searchSegments := [], replaceSegments := [],
    inSearch := false, inReplace := false, searchMatchIndex := -1,
    searchEndIndex := -1, replacementStartOffset := -1, trace := tr,
    curEmit := [] }

/-- Block-level summary of the processor loop: resolve each block's match in
turn, appending the skipped slice of the original and the rendered
replacement, advancing the cursor, and recording the applied block. -/
def applyBlocks (originalContent : Str) (li : Option LineIndex) :
    Str → Int → List AppliedBlock → List SRBlock →
    Except Str (Str × Int × List AppliedBlock)
  | acc, cur, tr, [] => .ok (acc, cur, tr)
  | acc, cur, tr, b :: bs =>
    match resolveSearchMatch originalContent cur (currentSearch b.search) li with
    | .error m => .error m
    | .ok (smi, sei) =>
      applyBlocks originalContent li
        ((if cur < smi then acc ++ jsSlice originalContent cur smi else acc) ++
          renderBody b.replace)
        sei (tr ++ [⟨smi, sei, renderBody b.replace⟩]) bs

/-- The content the processor accumulates over a list of applied blocks,
including the trailing append of the rest of the original. -/
def contentOf (original : Str) : Str → Int → List AppliedBlock → Str
  | acc, cur, [] =>
    if cur < (original.length : Int) then
      acc ++ jsSlice original cur (original.length : Int)
    else acc
  | acc, cur, b :: bs =>
    contentOf original
      ((if cur < b.matchStart then acc ++ jsSlice original cur b.matchStart else acc) ++
        b.replaced)
      b.matchEnd bs

theorem splitNl_ne_nil (s : Str) : splitNl s ≠ [] := by
  cases s with
  | nil => simp [splitNl]
  | cons c rest =>
    simp only [splitNl]
    split
    · simp
    · cases h : splitNl rest <;> simp

theorem joinNl_splitNl (s : Str) : joinNl (splitNl s) = s := by
  induction s with
  | nil => rfl
  | cons c rest ih =>
    by_cases hc : c = '\n'
    · subst hc
      simp only [splitNl, if_pos rfl]
      rcases hsp : splitNl rest with _ | ⟨l, ls⟩
      · exact absurd hsp (splitNl_ne_nil rest)
      · rw [hsp] at ih
        simp only [joinNl]
        simpa using ih
    · simp only [splitNl, if_neg hc]
      rcases hsp : splitNl rest with _ | ⟨l, ls⟩
      · exact absurd hsp (splitNl_ne_nil rest)
      · rw [hsp] at ih
        cases ls with
        | nil => simpa [joinNl] using ih
        | cons x xs => simpa [joinNl] using ih

theorem splitNl_no_nl (l : Str) (h : '\n' ∉ l) : splitNl l = [l] := by
  induction l with
  | nil => rfl
  | cons c rest ih =>
    have hc : ¬ c = '\n' := fun hcc => h (hcc ▸ List.mem_cons_self c rest)
    have hr : '\n' ∉ rest := fun hm => h (List.mem_cons_of_mem c hm)
    simp only [splitNl, if_neg hc, ih hr]

theorem splitNl_append_nl (l t : Str) (h : '\n' ∉ l) :
    splitNl (l ++ '\n' :: t) = l :: splitNl t := by
  induction l with
  | nil => simp [splitNl]
  | cons c rest ih =>
    have hc : ¬ c = '\n' := fun hcc => h (hcc ▸ List.mem_cons_self c rest)
    have hr : '\n' ∉ rest := fun hm => h (List.mem_cons_of_mem c hm)
    have hstep := ih hr
    have hstep2 : splitNl (rest.append ('\n' :: t)) = rest :: splitNl t := hstep
    simp only [List.cons_append, splitNl, if_neg hc]
    rw [hstep2]

theorem splitNl_joinNl (ls : List Str) (hne : ls ≠ [])
    (h : ∀ l ∈ ls, '\n' ∉ l) : splitNl (joinNl ls) = ls := by
  induction ls with
  | nil => exact absurd rfl hne
  | cons l rest ih =>
    cases rest with
    | nil => simpa [joinNl] using splitNl_no_nl l (h l (by simp))
    | cons x xs =>
      have h1 : '\n' ∉ l := h l (by simp)
      have h2 : ∀ m ∈ x :: xs, '\n' ∉ m := fun m hm => h m (List.mem_cons_of_mem l hm)
      simp only [joinNl, splitNl_append_nl l _ h1, ih (by simp) h2]

theorem offUpTo_zero (ls : List Str) : offUpTo ls 0 = 0 := rfl

theorem offUpTo_nil (m : Nat) : offUpTo [] m = 0 := by
  simp [offUpTo]

theorem offUpTo_cons (l : Str) (ls : List Str) (m : Nat) :
    offUpTo (l :: ls) (m + 1) = l.length + 1 + offUpTo ls m := by
  simp [offUpTo, List.take_succ_cons, Nat.add_comm, Nat.add_assoc, Nat.add_left_comm]

theorem offUpTo_succ_getD (ls : List Str) (i : Nat) (h : i < ls.length) :
    offUpTo ls (i + 1) = offUpTo ls i + ((ls.getD i []).length + 1) := by
  induction ls generalizing i with
  | nil => simp at h
  | cons l rest ih =>
    cases i with
    | zero => simp [offUpTo_cons, offUpTo_zero, Nat.add_comm]
    | succ j =>
      have hj : j < rest.length := by simpa using h
      simp only [offUpTo_cons, List.getD_cons_succ, ih j hj]
      omega

theorem offUpTo_mono (ls : List Str) {a b : Nat} (h : a ≤ b) :
    offUpTo ls a ≤ offUpTo ls b := by
  induction ls generalizing a b with
  | nil => simp [offUpTo_nil]
  | cons l rest ih =>
    cases a with
    | zero => simp [offUpTo_zero]
    | succ a' =>
      cases b with
      | zero => omega
      | succ b' =>
        have := ih (a := a') (b := b') (by omega)
        simp only [offUpTo_cons]
        omega

theorem offUpTo_total (ls : List Str) (hne : ls ≠ []) :
    offUpTo ls ls.length = (joinNl ls).length + 1 := by
  induction ls with
  | nil => exact absurd rfl hne
  | cons l rest ih =>
    cases rest with
    | nil => simp [offUpTo, joinNl]
    | cons x xs =>
      have := ih (by simp)
      simp only [List.length_cons, offUpTo_cons, joinNl, List.length_append] at *
      omega

theorem drop_append_length (a b : Str) (m : Nat) :
    (a ++ b).drop (a.length + m) = b.drop m := by
  rw [← List.drop_drop, List.drop_left]

theorem joinNl_drop (ls : List Str) (i : Nat) :
    (joinNl ls).drop (offUpTo ls i) = joinNl (ls.drop i) := by
  induction ls generalizing i with
  | nil => simp [offUpTo_nil, joinNl]
  | cons l rest ih =>
    cases i with
    | zero => simp [offUpTo_zero]
    | succ j =>
      cases rest with
      | nil =>
        simp only [joinNl, offUpTo_cons, offUpTo_nil, List.drop_nil]
        rw [List.drop_eq_nil_of_le (by simp)]
        cases j <;> simp [joinNl]
      | cons x xs =>
        simp only [joinNl, offUpTo_cons, List.drop_succ_cons]
        have e1 : l ++ '\n' :: joinNl (x :: xs) = (l ++ ['\n']) ++ joinNl (x :: xs) := by simp
        have e2 : l.length + 1 + offUpTo (x :: xs) j =
            (l ++ ['\n']).length + offUpTo (x :: xs) j := by simp
        rw [e1, e2, drop_append_length, ih j]

theorem buildOffsets_getElem? (ls : List Str) (b m : Nat) (h : m ≤ ls.length) :
    (buildOffsets ls b)[m]? = some (b + offUpTo ls m) := by
  induction ls generalizing b m with
  | nil =>
    have : m = 0 := by simpa using h
    subst this
    simp [buildOffsets, offUpTo_nil]
  | cons l rest ih =>
    cases m with
    | zero => simp [buildOffsets, offUpTo_zero]
    | succ j =>
      have hj : j ≤ rest.length := by simpa using h
      simp only [buildOffsets, List.getElem?_cons_succ, ih _ j hj, offUpTo_cons]
      congr 1
      omega

theorem build_getOffsetForLine (content : Str) (m : Nat)
    (h : m ≤ (splitNl content).length) :
    (LineIndex.build content).getOffsetForLine m = offUpTo (splitNl content) m := by
  simp [LineIndex.build, LineIndex.getOffsetForLine, buildOffsets_getElem? _ 0 m h]

theorem joinNl_slice_mid (ls : List Str) (i : Nat) (h : i + 1 < ls.length) :
    sliceNat (joinNl ls) (offUpTo ls i) (offUpTo ls (i + 1)) = ls.getD i [] ++ ['\n'] := by
  have hi : i < ls.length := by omega
  have hdiff : offUpTo ls (i + 1) - offUpTo ls i = (ls.getD i []).length + 1 := by
    rw [offUpTo_succ_getD ls i hi]; omega
  have hdrop : ls.drop i = ls.getD i [] :: ls.drop (i + 1) := by
    rw [List.getD_eq_getElem ls [] hi]
    exact List.drop_eq_getElem_cons hi
  have hrest : ls.drop (i + 1) ≠ [] := by
    intro hnil
    have := congrArg List.length hnil
    simp at this
    omega
  rw [sliceNat, joinNl_drop, hdiff, hdrop]
  rcases hr : ls.drop (i + 1) with _ | ⟨x, xs⟩
  · exact absurd hr hrest
  · show (ls.getD i [] ++ '\n' :: joinNl (x :: xs)).take ((ls.getD i []).length + 1) = _
    rw [List.take_append 1]
    simp

theorem joinNl_slice_last (ls : List Str) (hne : ls ≠ []) :
    sliceNat (joinNl ls) (offUpTo ls (ls.length - 1)) (offUpTo ls ls.length) =
      ls.getD (ls.length - 1) [] := by
  have hlen : 0 < ls.length := List.length_pos.mpr hne
  have hi : ls.length - 1 < ls.length := by omega
  have hdiff : offUpTo ls ls.length - offUpTo ls (ls.length - 1) =
      (ls.getD (ls.length - 1) []).length + 1 := by
    have := offUpTo_succ_getD ls (ls.length - 1) hi
    have heq : ls.length - 1 + 1 = ls.length := by omega
    rw [heq] at this
    omega
  have hdrop : ls.drop (ls.length - 1) = [ls.getD (ls.length - 1) []] := by
    rw [List.getD_eq_getElem ls [] hi]
    have := List.drop_eq_getElem_cons hi
    have heq : ls.length - 1 + 1 = ls.length := by omega
    rw [heq, List.drop_length] at this
    exact this
  rw [sliceNat, joinNl_drop, hdiff, hdrop]
  exact List.take_of_length_le (by simp [joinNl])

theorem build_lines (content : Str) : (LineIndex.build content).lines = splitNl content := rfl

/-- C8 (amended): in the `LineIndex` built from `content` with `n` lines,
`lineToOffset[i]` is the character offset of line `i`'s first character for
every `i < n` (the slice between consecutive offsets is line `i` plus one
newline, and the slice before the final offset is the last line with no
newline), but `lineToOffset[n]` is `len(content) + 1`, not `len(content)`:
the builder adds `length + 1` for the last line although the split's last
segment has no trailing newline. -/
theorem c8_line_offsets_invariant (content : Str) :
    (∀ i, i + 1 < (LineIndex.build content).lines.length →
      sliceNat content ((LineIndex.build content).getOffsetForLine i)
          ((LineIndex.build content).getOffsetForLine (i + 1)) =
        (LineIndex.build content).getLineAt i ++ ['\n']) ∧
    (sliceNat content
        ((LineIndex.build content).getOffsetForLine
          ((LineIndex.build content).lines.length - 1))
        ((LineIndex.build content).getOffsetForLine (LineIndex.build content).lines.length) =
      (LineIndex.build content).getLineAt ((LineIndex.build content).lines.length - 1)) ∧
    (LineIndex.build content).getOffsetForLine (LineIndex.build content).lines.length =
      content.length + 1 := by
  have hne := splitNl_ne_nil content
  have hjoin := joinNl_splitNl content
  have hlineAt : ∀ i, i < (splitNl content).length →
      (LineIndex.build content).getLineAt i = (splitNl content).getD i [] := by
    intro i hi
    rw [LineIndex.getLineAt, build_lines, List.getD_eq_getElem?_getD]
  refine ⟨?_, ?_, ?_⟩
  · intro i hi
    rw [build_lines] at hi
    rw [build_getOffsetForLine content i (by omega),
      build_getOffsetForLine content (i + 1) (by omega), hlineAt i (by omega)]
    have hmid := joinNl_slice_mid (splitNl content) i hi
    rwa [hjoin] at hmid
  · rw [build_lines, build_getOffsetForLine content _ (by omega),
      build_getOffsetForLine content _ (le_refl _),
      hlineAt _ (by have := List.length_pos.mpr hne; omega)]
    have hlast := joinNl_slice_last (splitNl content) hne
    rwa [hjoin] at hlast
  · rw [build_lines, build_getOffsetForLine content _ (le_refl _), offUpTo_total _ hne, hjoin]

/-- C8 witness: the invariant instantiated on the content `"ab\nc"`. -/
theorem c8_line_offsets_invariant_witness :
    sliceNat ("ab\nc".data) ((LineIndex.build ("ab\nc".data)).getOffsetForLine 0)
        ((LineIndex.build ("ab\nc".data)).getOffsetForLine 1) =
      (LineIndex.build ("ab\nc".data)).getLineAt 0 ++ ['\n'] :=
  (c8_line_offsets_invariant ("ab\nc".data)).1 0 (by decide)

/-- C8 counterexample: on `"ab\nc"` (4 characters, 2 lines) the final
`lineToOffset` entry is 5, not the content length 4, refuting
`lineToOffset[n] = len(content)`. -/
theorem c8_counterexample :
    (LineIndex.build ("ab\nc".data)).getOffsetForLine 2 = 5 ∧
      ("ab\nc".data).length = 4 := by decide

/-- C2: the exact-match step misses an occurrence.  On `text = "zxaba"`,
`pattern = "aba"`, `cursor = 0` the source's Boyer-Moore returns `-1`
although the pattern occurs at index 2 (the first occurrence at or after
the cursor): after the mismatch at window 0 the bad-character rule shifts
by the full pattern length past the occurrence. -/
theorem c2_boyer_moore_miss_eval :
    boyerMooreSearch ("zxaba".data) ("aba".data) 0 = -1 ∧
      subIndex? ("zxaba".data) ("aba".data) = some 2 := by decide

/-- C4: a `>>>>>>> REPLACE` line seen while still in the search state sets
`lastProcessedIndex := searchEndIndex = -1` instead of leaving the cursor
unchanged; on finalisation `slice(-1, len)` then appends only the last
character of the original.  With the malformed block's lines absent the
same call returns the whole original. -/
theorem c4_malformed_replace_eval :
    constructNewFileContent ("<<<<<<< SEARCH\nfoo\n>>>>>>> REPLACE\n".data) ("abc".data) true =
      .ok { content := "c".data, changedRegions := [], trace := [⟨-1, -1, []⟩] } ∧
    constructNewFileContent ([]) ("abc".data) true =
      .ok { content := "abc".data, changedRegions := [], trace := [] } :=
  ⟨rfl, rfl⟩

/-- C5 counterexample: with search body `"zz "` (trailing space) against
original `"abc"`, all matchers fail and the reported search content is
`"zz"` — `trimEnd` removed the trailing space as well, not only the single
trailing newline the claim allows. -/
theorem c5_counterexample :
    constructNewFileContent ("<<<<<<< SEARCH\nzz \n=======\n".data) ("abc".data) true =
      .error (noMatchMsg ("zz".data)) ∧
    noMatchMsg ("zz".data) ≠ noMatchMsg ("zz ".data) :=
  ⟨rfl, by decide⟩

/-- C5 (amended): when the search content is non-empty and the three
matchers all fail, the call fails with the NoMatch error whose reported
search content is the accumulated search content with ALL trailing
whitespace removed (JS `trimEnd`), not just a single trailing newline. -/
theorem c5_nomatch_reports_trimEnd (originalContent : Str) (lastProcessedIndex : Int)
    (csc : Str) (lineIndex : Option LineIndex)
    (hne : csc ≠ [])
    (hbm : boyerMooreSearch originalContent csc lastProcessedIndex = -1)
    (hlt : lineTrimmedFallbackMatch originalContent csc lastProcessedIndex lineIndex = none)
    (hba : blockAnchorFallbackMatch originalContent csc lastProcessedIndex lineIndex = none) :
    resolveSearchMatch originalContent lastProcessedIndex csc lineIndex =
      .error (noMatchMsg (trimEndStr csc)) := by
  have hemp : csc.isEmpty = false := by
    cases csc with
    | nil => exact absurd rfl hne
    | cons c t => rfl
  rw [resolveSearchMatch]
  simp only [hemp, Bool.false_eq_true, if_false, hbm, hlt, hba]
  simp

/-- C5 witness: the amended statement on the counterexample's inputs. -/
theorem c5_nomatch_reports_trimEnd_witness :
    resolveSearchMatch ("abc".data) 0 ("zz \n".data) none =
      .error (noMatchMsg (trimEndStr ("zz \n".data))) :=
  c5_nomatch_reports_trimEnd _ _ _ _ (by decide) (by decide) (by decide) (by decide)

/-- C7 counterexample: the search content `"a\nb\n"` has a two-line body
(below the claimed three-line minimum), yet `blockAnchorFallbackMatch`
returns the match `[0, 4)` on `"a\nb\nc"`: the three-line guard runs on
the raw split (body lines plus the trailing empty segment) before the
trailing empty line is dropped. -/
theorem c7_counterexample :
    blockAnchorFallbackMatch ("a\nb\nc".data) ("a\nb\n".data) 0 none = some (0, 4) ∧
      ((splitNl ("a\nb\n".data)).dropLast).length = 2 := by decide

/-- C7 (amended): `blockAnchorFallbackMatch` returns NoMatch whenever the
search content splits into fewer than three newline-separated segments;
since the processor's search content carries a trailing newline, this
rejects bodies of fewer than two lines, while two-line bodies pass the
guard. -/
theorem c7_guard_counts_split_segments (originalContent searchContent : Str)
    (startIndex : Int) (lineIndex : Option LineIndex)
    (h : (splitNl searchContent).length < 3) :
    blockAnchorFallbackMatch originalContent searchContent startIndex lineIndex = none := by
  have hdir : blockAnchorDirect originalContent searchContent startIndex = none := by
    rw [blockAnchorDirect]
    simp only [if_pos h]
  have hidx : ∀ li : LineIndex, blockAnchorIndexed li searchContent startIndex = none := by
    intro li
    rw [blockAnchorIndexed]
    simp only [if_pos h]
  cases lineIndex with
  | none => simpa [blockAnchorFallbackMatch] using hdir
  | some li =>
    by_cases hs : shouldUseIndex originalContent
    · simpa [blockAnchorFallbackMatch, hs] using hidx li
    · simpa [blockAnchorFallbackMatch, hs] using hdir

/-- C7 witness: a one-line search content (two split segments) is rejected. -/
theorem c7_guard_counts_split_segments_witness :
    blockAnchorFallbackMatch ("abc".data) ("x\n".data) 0 none = none :=
  c7_guard_counts_split_segments _ _ _ _ (by decide)

theorem stepLine_noop (ctx : PCtx) (s : PState) (line : Str)
    (h1 : line ≠ markerSearch) (h2 : line ≠ markerSep) (h3 : line ≠ markerReplace)
    (hs : s.inSearch = false) (hr : s.inReplace = false) :
    stepLine ctx s line = .cont s := by
  rw [stepLine, if_neg h1, if_neg h2, if_neg h3]
  simp [hs, hr]

theorem runLines_noop (ctx : PCtx) (ls : List Str) (s : PState)
    (h : ∀ l ∈ ls, l ≠ markerSearch ∧ l ≠ markerSep ∧ l ≠ markerReplace)
    (hs : s.inSearch = false) (hr : s.inReplace = false) :
    runLines ctx ls s = .ok (.inl s) := by
  induction ls with
  | nil => rfl
  | cons l t ih =>
    have hl := h l (by simp)
    have hstep := stepLine_noop ctx s l hl.1 hl.2.1 hl.2.2 hs hr
    simp only [runLines, hstep]
    exact ih (fun m hm => h m (by simp [hm]))

/-- C10: on a non-final call whose diff chunk contains no marker line, the
processor returns empty content and no change regions — the unmodified
original is not echoed back. -/
theorem c10_no_markers_nonfinal_empty (diffContent originalContent : Str)
    (h : ∀ l ∈ splitNl diffContent,
      l ≠ markerSearch ∧ l ≠ markerSep ∧ l ≠ markerReplace) :
    constructNewFileContent diffContent originalContent false =
      .ok { content := [], changedRegions := [], trace := [] } := by
  have hdrop : ∀ l ∈ (splitNl diffContent).dropLast,
      l ≠ markerSearch ∧ l ≠ markerSep ∧ l ≠ markerReplace :=
    fun l hl => h l ((List.dropLast_sublist _).subset hl)
  rw [constructNewFileContent]
  simp only [Bool.false_eq_true, false_and, if_false]
  by_cases hc : 0 < (splitNl diffContent).length ∧
      startsMarkerChar ((splitNl diffContent).getLastD []) = true ∧
      (splitNl diffContent).getLastD [] ≠ markerSearch ∧
      (splitNl diffContent).getLastD [] ≠ markerSep ∧
      (splitNl diffContent).getLastD [] ≠ markerReplace
  · rw [if_pos hc, runLines_noop _ _ _ hdrop rfl rfl]
    rfl
  · rw [if_neg hc, runLines_noop _ _ _ h rfl rfl]
    rfl

/-- C10 witness: a plain text chunk on a non-final call. -/
theorem c10_no_markers_nonfinal_empty_witness :
    constructNewFileContent ("hello\nworld".data) ("orig".data) false =
      .ok { content := [], changedRegions := [], trace := [] } :=
  c10_no_markers_nonfinal_empty _ _ (by decide)

theorem directStartLine_spec (ls : List Str) (si : Int) :
    ∀ (ci : Int) (acc : Nat),
      acc ≤ directStartLine ls si ci acc ∧
      directStartLine ls si ci acc ≤ acc + ls.length ∧
      (directStartLine ls si ci acc = acc + ls.length ∨
        si ≤ ci + (offUpTo ls (directStartLine ls si ci acc - acc) : Int)) := by
  induction ls with
  | nil =>
    intro ci acc
    simp [directStartLine]
  | cons l rest ih =>
    intro ci acc
    rw [directStartLine]
    by_cases hci : ci < si
    · rw [if_pos hci]
      obtain ⟨ih1, ih2, ih3⟩ := ih (ci + (l.length : Int) + 1) (acc + 1)
      refine ⟨by omega, by simp only [List.length_cons]; omega, ?_⟩
      rcases ih3 with h | h
      · left
        simp only [List.length_cons]
        omega
      · right
        have hsub : directStartLine rest si (ci + (l.length : Int) + 1) (acc + 1) - acc =
            (directStartLine rest si (ci + (l.length : Int) + 1) (acc + 1) - (acc + 1)) + 1 := by
          omega
        rw [hsub, offUpTo_cons]
        push_cast at h ⊢
        omega
    · rw [if_neg hci]
      refine ⟨le_refl _, by simp, Or.inr ?_⟩
      simp only [Nat.sub_self, offUpTo_zero, Nat.cast_zero, add_zero]
      omega

theorem directPositions_bounds {originalLines : List Str} {s k : Nat} {key : Str} {pos : Nat}
    (h : pos ∈ directPositions originalLines s k key) :
    s ≤ pos ∧ pos + k ≤ originalLines.length := by
  rw [directPositions, List.mem_filter] at h
  obtain ⟨-, hp⟩ := h
  simp only [Bool.and_eq_true, decide_eq_true_eq] at hp
  tauto

theorem lineTrimmedScan_start {originalLines searchLines : List Str} {s : Nat}
    {ms me : Nat} (h : lineTrimmedScan originalLines searchLines s = some (ms, me)) :
    ∃ pos, s ≤ pos ∧ pos + searchLines.length ≤ originalLines.length ∧
      ms = offUpTo originalLines pos := by
  cases hf : List.find? (directFullMatch originalLines searchLines)
      (directPositions originalLines s searchLines.length (trimStr (searchLines.getD 0 []))) with
  | none =>
    exfalso
    rw [lineTrimmedScan, hf] at h
    split_ifs at h <;> simp at h
  | some pos =>
    rw [lineTrimmedScan, hf] at h
    have hb := directPositions_bounds (List.mem_of_find?_eq_some hf)
    refine ⟨pos, hb.1, hb.2, ?_⟩
    split_ifs at h <;> simp at h <;> omega

theorem blockAnchorScan_start {originalLines searchLines : List Str} {s : Nat}
    {ms me : Nat} (h : blockAnchorScan originalLines searchLines s = some (ms, me)) :
    ∃ pos, s ≤ pos ∧ pos + searchLines.length ≤ originalLines.length ∧
      ms = offUpTo originalLines pos := by
  cases hf : List.find? (fun i =>
      decide (s ≤ i) && decide (i + searchLines.length ≤ originalLines.length) &&
        (trimStr (originalLines.getD i []) == trimStr (searchLines.getD 0 [])) &&
        (trimStr (originalLines.getD (i + searchLines.length - 1) []) ==
          trimStr (searchLines.getLastD []))) (List.range originalLines.length) with
  | none =>
    exfalso
    rw [blockAnchorScan, hf] at h
    simp at h
  | some pos =>
    rw [blockAnchorScan, hf] at h
    have hp := List.find?_some hf
    simp only [Bool.and_eq_true, decide_eq_true_eq] at hp
    refine ⟨pos, by tauto, by tauto, ?_⟩
    simp at h
    omega

theorem lineTrimmedDirect_cursor {originalContent searchContent : Str} {startIndex : Int}
    {ms me : Nat}
    (h : lineTrimmedDirect originalContent searchContent startIndex = some (ms, me)) :
    startIndex ≤ (ms : Int) := by
  have core : ∀ SL : List Str, SL.length ≠ 0 →
      lineTrimmedScan (splitNl originalContent) SL
        (directStartLine (splitNl originalContent) startIndex 0 0) = some (ms, me) →
      startIndex ≤ (ms : Int) := by
    intro SL hk hscan
    obtain ⟨pos, hsle, hbound, hms⟩ := lineTrimmedScan_start hscan
    obtain ⟨h1, h2, h3⟩ := directStartLine_spec (splitNl originalContent) startIndex 0 0
    rcases h3 with hcase | hcase
    · omega
    · subst hms
      have hmono := offUpTo_mono (splitNl originalContent)
        (a := directStartLine (splitNl originalContent) startIndex 0 0) (b := pos) (by omega)
      simp only [zero_add, Nat.sub_zero] at hcase
      omega
  simp only [lineTrimmedDirect] at h
  repeat' split at h
  all_goals first
    | simp at h
    | exact core _ (by assumption) h

theorem blockAnchorDirect_cursor {originalContent searchContent : Str} {startIndex : Int}
    {ms me : Nat}
    (h : blockAnchorDirect originalContent searchContent startIndex = some (ms, me)) :
    startIndex ≤ (ms : Int) := by
  have core : ∀ SL : List Str, SL.length ≠ 0 →
      blockAnchorScan (splitNl originalContent) SL
        (directStartLine (splitNl originalContent) startIndex 0 0) = some (ms, me) →
      startIndex ≤ (ms : Int) := by
    intro SL hk hscan
    obtain ⟨pos, hsle, hbound, hms⟩ := blockAnchorScan_start hscan
    obtain ⟨h1, h2, h3⟩ := directStartLine_spec (splitNl originalContent) startIndex 0 0
    rcases h3 with hcase | hcase
    · omega
    · subst hms
      have hmono := offUpTo_mono (splitNl originalContent)
        (a := directStartLine (splitNl originalContent) startIndex 0 0) (b := pos) (by omega)
      simp only [zero_add, Nat.sub_zero] at hcase
      omega
  simp only [blockAnchorDirect] at h
  split at h
  · simp at h
  · rename_i hlen3
    split at h
    · rename_i hpop
      refine core _ ?_ h
      rw [List.length_dropLast]
      omega
    · refine core _ ?_ h
      omega

/-- C3 (amended): on the direct scan path — no `LineIndex` supplied, or a
content at or below the 1 MiB threshold — every range returned by
`lineTrimmedFallbackMatch` or `blockAnchorFallbackMatch` starts at or
after the cursor.  (The indexed path violates this; see the
counterexample.) -/
theorem c3_direct_path_respects_cursor :
    (∀ (originalContent searchContent : Str) (startIndex : Int)
        (lineIndex : Option LineIndex) (ms me : Nat),
        (lineIndex = none ∨ shouldUseIndex originalContent = false) →
        lineTrimmedFallbackMatch originalContent searchContent startIndex lineIndex =
          some (ms, me) →
        startIndex ≤ (ms : Int)) ∧
    (∀ (originalContent searchContent : Str) (startIndex : Int)
        (lineIndex : Option LineIndex) (ms me : Nat),
        (lineIndex = none ∨ shouldUseIndex originalContent = false) →
        blockAnchorFallbackMatch originalContent searchContent startIndex lineIndex =
          some (ms, me) →
        startIndex ≤ (ms : Int)) := by
  constructor
  · intro oc sc si li ms me hdir h
    cases li with
    | none =>
      rw [lineTrimmedFallbackMatch] at h
      exact lineTrimmedDirect_cursor h
    | some l =>
      rw [lineTrimmedFallbackMatch] at h
      rcases hdir with hno | hs
      · exact absurd hno (by simp)
      · rw [hs] at h
        simp only [Bool.false_eq_true, if_false] at h
        exact lineTrimmedDirect_cursor h
  · intro oc sc si li ms me hdir h
    cases li with
    | none =>
      rw [blockAnchorFallbackMatch] at h
      exact blockAnchorDirect_cursor h
    | some l =>
      rw [blockAnchorFallbackMatch] at h
      rcases hdir with hno | hs
      · exact absurd hno (by simp)
      · rw [hs] at h
        simp only [Bool.false_eq_true, if_false] at h
        exact blockAnchorDirect_cursor h

/-- C3 witness: a direct-path line-trimmed match found at the cursor. -/
theorem c3_direct_path_respects_cursor_witness :
    (2 : Int) ≤ ((2 : Nat) : Int) :=
  c3_direct_path_respects_cursor.1 ("a\nb".data) ("b".data) 2 none 2 4
    (Or.inl rfl) (by decide)

theorem nl_not_mem_replicate_y (n : Nat) : '\n' ∉ List.replicate n 'y' := by
  intro hm
  exact absurd (List.eq_of_mem_replicate hm) (by decide)

theorem trimStr_replicate_y (n : Nat) :
    trimStr (List.replicate n 'y') = List.replicate n 'y' := by
  cases n with
  | zero => rfl
  | succ m =>
    rw [trimStr, trimStart, List.replicate_succ, List.dropWhile_cons]
    rw [show isWs 'y' = false from rfl]
    simp only [Bool.false_eq_true, if_false]
    rw [trimEndStr, ← List.replicate_succ, List.reverse_replicate, List.replicate_succ,
      List.dropWhile_cons]
    rw [show isWs 'y' = false from rfl]
    simp only [Bool.false_eq_true, if_false]
    rw [← List.replicate_succ, List.reverse_replicate]

theorem length_bigOriginal : bigOriginal.length = SIZE_THRESHOLD + 2 := by
  show ('x' :: '\n' :: List.replicate SIZE_THRESHOLD 'y').length = SIZE_THRESHOLD + 2
  rw [List.length_cons, List.length_cons, List.length_replicate]

theorem shouldUseIndex_bigOriginal : shouldUseIndex bigOriginal = true := by
  show decide (SIZE_THRESHOLD < bigOriginal.length) = true
  rw [length_bigOriginal, decide_eq_true_eq]
  omega

theorem replicate_y_trim_ne_x :
    (trimStr (List.replicate SIZE_THRESHOLD 'y') == (['x'] : Str)) = false := by
  rw [trimStr_replicate_y, beq_eq_false_iff_ne]
  intro hcontra
  have hlen := congrArg List.length hcontra
  simp only [List.length_replicate, List.length_cons, List.length_nil] at hlen
  exact absurd hlen (by decide)

theorem gsplit (R : Str) (hnl : '\n' ∉ R) : splitNl ('x' :: '\n' :: R) = [['x'], R] := by
  show splitNl (['x'] ++ '\n' :: R) = _
  rw [splitNl_append_nl _ _ (by decide), splitNl_no_nl R hnl]

theorem glines_len (R : Str) (hnl : '\n' ∉ R) :
    (LineIndex.build ('x' :: '\n' :: R)).lines.length = 2 := by
  rw [build_lines, gsplit R hnl]
  rfl

theorem glineAt0 (R : Str) (hnl : '\n' ∉ R) :
    (LineIndex.build ('x' :: '\n' :: R)).getLineAt 0 = ['x'] := by
  rw [LineIndex.getLineAt, build_lines, gsplit R hnl]
  rfl

theorem glineAt1 (R : Str) (hnl : '\n' ∉ R) :
    (LineIndex.build ('x' :: '\n' :: R)).getLineAt 1 = R := by
  rw [LineIndex.getLineAt, build_lines, gsplit R hnl]
  rfl

theorem goff0 (R : Str) (hnl : '\n' ∉ R) :
    (LineIndex.build ('x' :: '\n' :: R)).getOffsetForLine 0 = 0 := by
  rw [build_getOffsetForLine _ _ (by rw [gsplit R hnl]; simp), gsplit R hnl]
  rfl

theorem goff1 (R : Str) (hnl : '\n' ∉ R) :
    (LineIndex.build ('x' :: '\n' :: R)).getOffsetForLine 1 = 2 := by
  rw [build_getOffsetForLine _ _ (by rw [gsplit R hnl]; simp), gsplit R hnl]
  rfl

theorem gpositions (R : Str) (hnl : '\n' ∉ R) (htr : (trimStr R == (['x'] : Str)) = false) :
    (LineIndex.build ('x' :: '\n' :: R)).getPositionsForLine ['x'] = [0] := by
  rw [LineIndex.getPositionsForLine, glines_len R hnl, show List.range 2 = [0, 1] from rfl]
  rw [List.filter_cons, List.filter_cons, List.filter_nil]
  rw [glineAt0 R hnl, glineAt1 R hnl]
  rw [show trimStr ['x'] = ['x'] from rfl]
  rw [htr]
  rfl

theorem gindexedStartLine (R : Str) (hnl : '\n' ∉ R) :
    indexedStartLine (LineIndex.build ('x' :: '\n' :: R)) 2 = 0 := by
  rw [indexedStartLine]
  rw [show (LineIndex.build ('x' :: '\n' :: R)).getLineCount =
    (LineIndex.build ('x' :: '\n' :: R)).lines.length from rfl]
  rw [glines_len R hnl, show List.range 2 = [0, 1] from rfl]
  rw [List.find?_cons]
  rw [show (decide ((2 : Int) ≤
      ((LineIndex.build ('x' :: '\n' :: R)).getOffsetForLine 0 : Int))) = false from by
    rw [goff0 R hnl]; decide]
  rw [List.find?_cons]
  rw [show (decide ((2 : Int) ≤
      ((LineIndex.build ('x' :: '\n' :: R)).getOffsetForLine 1 : Int))) = true from by
    rw [goff1 R hnl]; decide]

theorem gfindExactMatch (R : Str) (hnl : '\n' ∉ R)
    (htr : (trimStr R == (['x'] : Str)) = false) :
    (LineIndex.build ('x' :: '\n' :: R)).findExactMatch [['x']] 0 = some (0, 2) := by
  rw [LineIndex.findExactMatch]
  have hpot : (LineIndex.build ('x' :: '\n' :: R)).findPotentialMatches [['x']] 0 = [0] := by
    rw [LineIndex.findPotentialMatches]
    rw [if_neg (by decide), if_pos (by decide)]
    rw [show ([['x']] : List Str).getD 0 [] = ['x'] from rfl, gpositions R hnl htr]
    rfl
  rw [hpot]
  have hfull : liFullMatch (LineIndex.build ('x' :: '\n' :: R)) [['x']] 0 = true := by
    rw [liFullMatch]
    rw [show List.range ([['x']] : List Str).length = [0] from rfl]
    rw [List.all_cons, List.all_nil, Bool.and_true]
    rw [show ((0 : Nat) + 0) = 0 from rfl, glineAt0 R hnl, glines_len R hnl]
    decide
  have hfind : List.find?
      (fun pos => liFullMatch (LineIndex.build ('x' :: '\n' :: R)) [['x']] pos) [0] =
      some 0 := by
    rw [List.find?_cons, hfull]
  rw [hfind]
  simp [glines_len R hnl, goff0 R hnl, goff1 R hnl]

theorem glineTrimmedIndexed (R : Str) (hnl : '\n' ∉ R)
    (htr : (trimStr R == (['x'] : Str)) = false) :
    lineTrimmedIndexed (LineIndex.build ('x' :: '\n' :: R)) ("x\n".data) 2 = some (0, 2) := by
  rw [lineTrimmedIndexed]
  rw [show splitNl ("x\n".data) = [['x'], []] from rfl]
  rw [show (if 0 < ([['x'], []] : List Str).length &&
      (([['x'], []] : List Str).getLastD [] == ([] : Str)) then
      ([['x'], []] : List Str).dropLast else [['x'], []]) = [['x']] from rfl]
  rw [if_neg (by decide), gindexedStartLine R hnl, gfindExactMatch R hnl htr]

theorem gdirectStartLine (R : Str) (hnl : '\n' ∉ R) :
    directStartLine (splitNl ('x' :: '\n' :: R)) 2 0 0 = 1 := by
  rw [gsplit R hnl, directStartLine, if_pos (by decide)]
  rw [directStartLine, if_neg (by decide)]

theorem glineTrimmedDirect (R : Str) (hnl : '\n' ∉ R)
    (htr : (trimStr R == (['x'] : Str)) = false) :
    lineTrimmedDirect ('x' :: '\n' :: R) ("x\n".data) 2 = none := by
  rw [lineTrimmedDirect]
  rw [show splitNl ("x\n".data) = [['x'], []] from rfl]
  rw [if_neg (by rw [gsplit R hnl]; simp)]
  rw [show (if ([['x'], []] : List Str).getLastD [] == ([] : Str) then
    ([['x'], []] : List Str).dropLast else [['x'], []]) = [['x']] from rfl]
  rw [if_neg (by decide)]
  rw [gdirectStartLine R hnl, lineTrimmedScan]
  have hpos : directPositions (splitNl ('x' :: '\n' :: R)) 1 ([['x']] : List Str).length
      (trimStr (([['x']] : List Str).getD 0 [])) = [] := by
    rw [directPositions, gsplit R hnl]
    rw [show List.range ([['x'], R] : List Str).length = [0, 1] from rfl]
    rw [List.filter_cons, List.filter_cons, List.filter_nil]
    rw [show (decide ((1:Nat) ≤ 0)) = false from rfl]
    simp only [Bool.false_and]
    rw [show (([['x'], R] : List Str).getD 1 []) = R from rfl]
    rw [show trimStr (([['x']] : List Str).getD 0 []) = ['x'] from rfl]
    rw [htr]
    simp
  rw [hpos]
  rw [if_pos (by simp), List.find?_nil]

theorem glineTrimmedFallback (R : Str) (hnl : '\n' ∉ R)
    (htr : (trimStr R == (['x'] : Str)) = false)
    (hs : shouldUseIndex ('x' :: '\n' :: R) = true) :
    lineTrimmedFallbackMatch ('x' :: '\n' :: R) ("x\n".data) 2
      (some (LineIndex.build ('x' :: '\n' :: R))) = some (0, 2) := by
  have hstep : lineTrimmedFallbackMatch ('x' :: '\n' :: R) ("x\n".data) 2
      (some (LineIndex.build ('x' :: '\n' :: R))) =
      (if shouldUseIndex ('x' :: '\n' :: R) then
        lineTrimmedIndexed (LineIndex.build ('x' :: '\n' :: R)) ("x\n".data) 2
      else lineTrimmedDirect ('x' :: '\n' :: R) ("x\n".data) 2) := rfl
  rw [hstep, hs, if_pos rfl]
  exact glineTrimmedIndexed R hnl htr

theorem lineTrimmed_big_fallback :
    lineTrimmedFallbackMatch bigOriginal ("x\n".data) 2 (some (LineIndex.build bigOriginal)) =
      some (0, 2) :=
  glineTrimmedFallback (List.replicate SIZE_THRESHOLD 'y')
    (nl_not_mem_replicate_y _) replicate_y_trim_ne_x shouldUseIndex_bigOriginal

theorem lineTrimmed_big_direct :
    lineTrimmedDirect bigOriginal ("x\n".data) 2 = none :=
  glineTrimmedDirect (List.replicate SIZE_THRESHOLD 'y')
    (nl_not_mem_replicate_y _) replicate_y_trim_ne_x

/-- C3 counterexample: on a content above the 1 MiB threshold (the line
`"x"` then one line of a megabyte of `y`), `lineTrimmedFallbackMatch` with
the LineIndex and cursor 2 returns the range starting at offset 0, below
the cursor: the indexed start-line computation steps back to the line
before the cursor. -/
theorem c3_counterexample :
    lineTrimmedFallbackMatch bigOriginal ("x\n".data) 2
        (some (LineIndex.build bigOriginal)) = some (0, 2) ∧
      ¬ ((2 : Int) ≤ ((0 : Nat) : Int)) :=
  ⟨lineTrimmed_big_fallback, by decide⟩

/-- C9 counterexample: on the same over-threshold content and cursor 2,
the indexed path of `lineTrimmedFallbackMatch` returns a match while the
direct path returns none — the two paths are not equivalent functions. -/
theorem c9_counterexample :
    lineTrimmedFallbackMatch bigOriginal ("x\n".data) 2
        (some (LineIndex.build bigOriginal)) ≠
      lineTrimmedFallbackMatch bigOriginal ("x\n".data) 2 none := by
  rw [lineTrimmed_big_fallback]
  rw [show lineTrimmedFallbackMatch bigOriginal ("x\n".data) 2 none =
    lineTrimmedDirect bigOriginal ("x\n".data) 2 from rfl]
  rw [lineTrimmed_big_direct]
  simp

theorem containsSub_of_isPrefixOf (hay pat : Str) (h : pat.isPrefixOf hay = true) :
    containsSub hay pat = true := by
  cases hay with
  | nil => simpa [containsSub] using h
  | cons c t => simp [containsSub, h]

theorem jsSlice_zero_zero (s : Str) : jsSlice s 0 0 = [] := by
  simp [jsSlice, jsIdx]

theorem jsSlice_zero_length (s : Str) : jsSlice s 0 (s.length : Int) = s := by
  have h1 : jsIdx s.length ((s.length : Nat) : Int) = s.length := by
    simp [jsIdx]
  have h0 : jsIdx s.length 0 = 0 := by simp [jsIdx]
  rw [jsSlice, h1, h0, List.take_length, List.drop_zero]

theorem countNl_renderBody (R : List Str) (h : ∀ l ∈ R, '\n' ∉ l) :
    (renderBody R).count '\n' = R.length := by
  induction R with
  | nil => rfl
  | cons l t ih =>
    simp only [renderBody, List.map_cons, List.flatten_cons]
    rw [List.count_append, List.count_append]
    have h1 : l.count '\n' = 0 := List.count_eq_zero.mpr (h l (by simp))
    have h2 := ih (fun m hm => h m (by simp [hm]))
    rw [renderBody] at h2
    simp [h1, h2]
    omega

theorem resolveSearchMatch_empty (originalContent : Str) (cur : Int)
    (li : Option LineIndex) :
    resolveSearchMatch originalContent cur [] li =
      .ok (0, if originalContent.length = 0 then 0 else (originalContent.length : Int)) := by
  by_cases h : originalContent.length = 0 <;> simp [resolveSearchMatch, h]

theorem stepLine_search_marker (ctx : PCtx) (s : PState)
    (hs : s.inSearch = false) (hr : s.inReplace = false) :
    stepLine ctx s markerSearch = .cont { s with inSearch := true } := by
  rw [stepLine, if_pos rfl]
  simp [hs, hr]

theorem stepLine_sep_marker_nomove (ctx : PCtx) (s : PState) (smi sei : Int)
    (hres : resolveSearchMatch ctx.originalContent s.lastProcessedIndex
      (currentSearch s.searchSegments) ctx.lineIndex = .ok (smi, sei))
    (hnl : ¬ s.lastProcessedIndex < smi) :
    stepLine ctx s markerSep = .cont { s with
      inSearch := false, inReplace := true,
      searchMatchIndex := smi, searchEndIndex := sei,
      replacementStartOffset := s.resultLength, curEmit := [] } := by
  rw [stepLine, if_neg (by decide), if_pos rfl]
  simp only [hres]
  simp [hnl]

theorem stepLine_sep_marker_move (ctx : PCtx) (s : PState) (smi sei : Int)
    (hres : resolveSearchMatch ctx.originalContent s.lastProcessedIndex
      (currentSearch s.searchSegments) ctx.lineIndex = .ok (smi, sei))
    (hlt : s.lastProcessedIndex < smi) :
    stepLine ctx s markerSep = .cont { s with
      inSearch := false, inReplace := true,
      result := appendSlice s.result ctx.originalContent s.lastProcessedIndex smi,
      resultLength := s.resultLength + (smi - s.lastProcessedIndex),
      searchMatchIndex := smi, searchEndIndex := sei,
      replacementStartOffset := s.resultLength + (smi - s.lastProcessedIndex),
      curEmit := [] } := by
  rw [stepLine, if_neg (by decide), if_pos rfl]
  simp only [hres]
  simp [hlt]

theorem stepLine_sep_marker_err (ctx : PCtx) (s : PState) (m : Str)
    (hres : resolveSearchMatch ctx.originalContent s.lastProcessedIndex
      (currentSearch s.searchSegments) ctx.lineIndex = .error m) :
    stepLine ctx s markerSep = .err m := by
  rw [stepLine, if_neg (by decide), if_pos rfl]
  simp only [hres]

theorem stepLine_emit_line (ctx : PCtx) (s : PState) (line : Str)
    (h1 : line ≠ markerSearch) (h2 : line ≠ markerSep) (h3 : line ≠ markerReplace)
    (hs : s.inSearch = false) (hr : s.inReplace = true) (hm : s.searchMatchIndex ≠ -1) :
    stepLine ctx s line = .cont { s with
      replaceSegments := s.replaceSegments ++ [line],
      result := s.result ++ line ++ ['\n'],
      resultLength := s.resultLength + (line.length : Int) + 1,
      curEmit := s.curEmit ++ line ++ ['\n'] } := by
  rw [stepLine, if_neg h1, if_neg h2, if_neg h3]
  simp [hs, hr, hm]

theorem stepLine_search_accum (ctx : PCtx) (s : PState) (line : Str)
    (h1 : line ≠ markerSearch) (h2 : line ≠ markerSep) (h3 : line ≠ markerReplace)
    (hs : s.inSearch = true) :
    stepLine ctx s line = .cont { s with searchSegments := s.searchSegments ++ [line] } := by
  rw [stepLine, if_neg h1, if_neg h2, if_neg h3]
  simp [hs]

theorem runLines_replace_emit (ctx : PCtx) (R rest : List Str) (s : PState)
    (hR : ∀ l ∈ R, l ≠ markerSearch ∧ l ≠ markerSep ∧ l ≠ markerReplace)
    (hs : s.inSearch = false) (hr : s.inReplace = true)
    (hm : s.searchMatchIndex ≠ -1) :
    runLines ctx (R ++ rest) s = runLines ctx rest
      { s with
        replaceSegments := s.replaceSegments ++ R,
        result := s.result ++ renderBody R,
        resultLength := s.resultLength + ((renderBody R).length : Int),
        curEmit := s.curEmit ++ renderBody R } := by
  induction R generalizing s with
  | nil => simp [renderBody]
  | cons l t ih =>
    have hl := hR l (by simp)
    rw [List.cons_append, runLines,
      stepLine_emit_line ctx s l hl.1 hl.2.1 hl.2.2 hs hr hm]
    show runLines ctx (t ++ rest) _ = _
    refine (ih { s with
        replaceSegments := s.replaceSegments ++ [l],
        result := s.result ++ l ++ ['\n'],
        resultLength := s.resultLength + (l.length : Int) + 1,
        curEmit := s.curEmit ++ l ++ ['\n'] }
      (fun m hm2 => hR m (by simp [hm2])) hs hr hm).trans ?_
    have hbody : renderBody (l :: t) = (l ++ ['\n']) ++ renderBody t := by
      simp [renderBody]
    congr 1
    rw [hbody]
    congr 1 <;> try simp [List.length_append]
    all_goals push_cast
    all_goals omega

/-- Top-level wrapper of the processor when neither the early exit nor the
partial-marker pop applies: the call is the line loop plus finalisation. -/
theorem constructNewFileContent_run (diffContent originalContent : Str) (isFinal : Bool)
    (hcont : containsSub diffContent markerSearch = true)
    (hpop : ¬ (0 < (splitNl diffContent).length ∧
      startsMarkerChar ((splitNl diffContent).getLastD []) = true ∧
      ((splitNl diffContent).getLastD []) ≠ markerSearch ∧
      ((splitNl diffContent).getLastD []) ≠ markerSep ∧
      ((splitNl diffContent).getLastD []) ≠ markerReplace)) :
    constructNewFileContent diffContent originalContent isFinal =
      match runLines ⟨diffContent, originalContent, isFinal,
          if shouldUseIndex originalContent then some (LineIndex.build originalContent)
          else none⟩
        (splitNl diffContent) initPState with
      | .error m => .error m
      | .ok (.inr r) => .ok r
      | .ok (.inl s) =>
        .ok { content :=
                (if isFinal = true ∧
                    s.lastProcessedIndex < (originalContent.length : Int) then
                  appendSlice s.result originalContent s.lastProcessedIndex
                    (originalContent.length : Int)
                else s.result),
              changedRegions := s.changedRegions, trace := s.trace } := by
  rw [constructNewFileContent, if_neg hpop]
  simp only [hcont]
  rw [if_neg (by simp)]

theorem stepLine_replace_marker_cont (ctx : PCtx) (s : PState)
    (hsm : s.searchMatchIndex ≠ -1) (hrso : s.replacementStartOffset ≠ -1)
    (hfc : ctx.isFinal = false ∨
      containsSub (remainingAfterFirstReplace ctx.diffContent) markerSearch = true) :
    stepLine ctx s markerReplace = .cont (closeBlockState s) := by
  rw [stepLine, if_neg (by decide), if_neg (by decide), if_pos rfl]
  rcases hfc with hf | hc
  · simp [hf, hsm, hrso, closeBlockState]
  · by_cases hf : ctx.isFinal
    · simp [hf, hc, hsm, hrso, closeBlockState]
    · simp [hf, hsm, hrso, closeBlockState]

theorem stepLine_replace_marker_finish (ctx : PCtx) (s : PState)
    (hsm : s.searchMatchIndex ≠ -1) (hrso : s.replacementStartOffset ≠ -1)
    (hfin : ctx.isFinal = true)
    (hc : containsSub (remainingAfterFirstReplace ctx.diffContent) markerSearch = false) :
    stepLine ctx s markerReplace = .finished (finishResult ctx (closeBlockState s)) := by
  rw [stepLine, if_neg (by decide), if_neg (by decide), if_pos rfl]
  simp [hfin, hc, hsm, hrso, closeBlockState]

theorem joinNl_cons_of_ne (l : Str) (ls : List Str) (h : ls ≠ []) :
    joinNl (l :: ls) = l ++ '\n' :: joinNl ls := by
  cases ls with
  | nil => exact absurd rfl h
  | cons x xs => rfl

theorem diffLines_no_nl (blocks : List SRBlock) (h : ∀ b ∈ blocks, goodBlock b) :
    ∀ l ∈ diffLinesOf blocks, '\n' ∉ l := by
  intro l hl
  rw [diffLinesOf, List.mem_append] at hl
  rcases hl with hl | hl
  · rw [List.mem_flatten] at hl
    obtain ⟨ls, hls, hmem⟩ := hl
    rw [List.mem_map] at hls
    obtain ⟨b, hb, rfl⟩ := hls
    rw [blockLines] at hmem
    simp only [List.mem_cons, List.mem_append, List.mem_singleton] at hmem
    rcases hmem with rfl | hs | rfl | hr | hlast
    · decide
    · exact ((h b hb).1 l hs).1
    · decide
    · exact ((h b hb).2 l hr).1
    · rcases hlast with rfl | h2
      · decide
      · simp at h2
  · rw [List.mem_singleton] at hl
    subst hl
    simp

theorem splitNl_renderDiff (blocks : List SRBlock) (h : ∀ b ∈ blocks, goodBlock b) :
    splitNl (renderDiff blocks) = diffLinesOf blocks := by
  rw [renderDiff]
  exact splitNl_joinNl _ (by simp [diffLinesOf]) (diffLines_no_nl blocks h)

theorem renderDiff_contains_marker (blocks : List SRBlock) (b0 : SRBlock)
    (bs : List SRBlock) (hb : blocks = b0 :: bs) :
    containsSub (renderDiff blocks) markerSearch = true := by
  subst hb
  apply containsSub_of_isPrefixOf
  rw [List.isPrefixOf_iff_prefix, renderDiff]
  have h1 : diffLinesOf (b0 :: bs) = markerSearch ::
      ((b0.search ++ markerSep :: (b0.replace ++ [markerReplace])) ++
        ((bs.map blockLines).flatten ++ [[]])) := by
    simp [diffLinesOf, blockLines]
  rw [h1, joinNl_cons_of_ne _ _ (by simp)]
  exact List.prefix_append _ _

theorem renderDiff_nopop (blocks : List SRBlock) (h : ∀ b ∈ blocks, goodBlock b) :
    ¬ (0 < (splitNl (renderDiff blocks)).length ∧
      startsMarkerChar ((splitNl (renderDiff blocks)).getLastD []) = true ∧
      ((splitNl (renderDiff blocks)).getLastD []) ≠ markerSearch ∧
      ((splitNl (renderDiff blocks)).getLastD []) ≠ markerSep ∧
      ((splitNl (renderDiff blocks)).getLastD []) ≠ markerReplace) := by
  rw [splitNl_renderDiff blocks h]
  have hlast : (diffLinesOf blocks).getLastD [] = [] := by
    rw [diffLinesOf]
    exact List.getLastD_concat _ _ _
  rw [hlast]
  rintro ⟨-, hsm, -⟩
  simp [startsMarkerChar] at hsm

theorem c6_run_core (ctx : PCtx) (R : List Str) (E : Int)
    (hR : ∀ l ∈ R, l ≠ markerSearch ∧ l ≠ markerSep ∧ l ≠ markerReplace)
    (hres : resolveSearchMatch ctx.originalContent 0 [] ctx.lineIndex = .ok (0, E)) :
    runLines ctx (markerSearch :: markerSep :: (R ++ [markerReplace, []])) initPState =
      (if ctx.isFinal = true ∧
          containsSub (remainingAfterFirstReplace ctx.diffContent) markerSearch = false then
        .ok (.inr (finishResult ctx (closeBlockState { initPState with
      inReplace := true, searchMatchIndex := 0, searchEndIndex := E,
          replacementStartOffset := 0, replaceSegments := R, result := renderBody R,
          resultLength := ((renderBody R).length : Int), curEmit := renderBody R })))
      else .ok (.inl (closeBlockState { initPState with
        inReplace := true, searchMatchIndex := 0, searchEndIndex := E,
        replacementStartOffset := 0, replaceSegments := R, result := renderBody R,
        resultLength := ((renderBody R).length : Int), curEmit := renderBody R }))) := by
  rw [runLines, stepLine_search_marker ctx initPState rfl rfl]
  show runLines ctx _ _ = _
  rw [runLines, stepLine_sep_marker_nomove ctx { initPState with inSearch := true } 0 E
    (by exact hres) (by simp [initPState])]
  show runLines ctx (R ++ [markerReplace, []])
    { initPState with
      inReplace := true, searchMatchIndex := 0, searchEndIndex := E,
      replacementStartOffset := 0 } = _
  rw [runLines_replace_emit ctx R [markerReplace, []]
    { initPState with
      inReplace := true, searchMatchIndex := 0, searchEndIndex := E,
      replacementStartOffset := 0 } hR rfl rfl
    (fun h => absurd h (show ((0 : Int) = -1) → False by decide))]
  show runLines ctx [markerReplace, []]
    { initPState with
      inReplace := true, searchMatchIndex := 0, searchEndIndex := E,
      replacementStartOffset := 0, replaceSegments := R, result := renderBody R,
      resultLength := 0 + ((renderBody R).length : Int), curEmit := renderBody R } = _
  rw [show ({ initPState with
      inReplace := true, searchMatchIndex := 0, searchEndIndex := E,
      replacementStartOffset := 0, replaceSegments := R, result := renderBody R,
      resultLength := 0 + ((renderBody R).length : Int),
      curEmit := renderBody R } : PState) =
    { initPState with
      inReplace := true, searchMatchIndex := 0, searchEndIndex := E,
      replacementStartOffset := 0, replaceSegments := R, result := renderBody R,
      resultLength := ((renderBody R).length : Int), curEmit := renderBody R } from by
    simp [initPState]]
  by_cases hfc : ctx.isFinal = true ∧
      containsSub (remainingAfterFirstReplace ctx.diffContent) markerSearch = false
  · rw [if_pos hfc]
    rw [runLines, stepLine_replace_marker_finish ctx _ (fun h => absurd h (show ((0 : Int) = -1) → False by decide))
      (fun h => absurd h (show ((0 : Int) = -1) → False by decide)) hfc.1 hfc.2]
  · rw [if_neg hfc]
    have hor : ctx.isFinal = false ∨
        containsSub (remainingAfterFirstReplace ctx.diffContent) markerSearch = true := by
      by_cases hf : ctx.isFinal = true
      · cases hcc : containsSub (remainingAfterFirstReplace ctx.diffContent) markerSearch with
        | false => exact absurd ⟨hf, hcc⟩ hfc
        | true => exact Or.inr rfl
      · exact Or.inl (Bool.not_eq_true _ ▸ hf)
    rw [runLines, stepLine_replace_marker_cont ctx _ (fun h => absurd h (show ((0 : Int) = -1) → False by decide))
      (fun h => absurd h (show ((0 : Int) = -1) → False by decide)) hor]
    show runLines ctx _ _ = _
    rw [runLines, stepLine_noop ctx _ [] (by decide) (by decide) (by decide) rfl rfl]
    show runLines ctx _ _ = _
    rw [runLines]

theorem c6_run_full (diffContent original : Str) (li : Option LineIndex) (R : List Str)
    (hR3 : ∀ l ∈ R, l ≠ markerSearch ∧ l ≠ markerSep ∧ l ≠ markerReplace)
    (hnl : ∀ l ∈ R, '\n' ∉ l)
    (hres : resolveSearchMatch original 0 [] li = .ok (0, (original.length : Int))) :
    ((match runLines ⟨diffContent, original, true, li⟩
        (markerSearch :: markerSep :: (R ++ [markerReplace, []])) initPState with
      | .error m => .error m
      | .ok (.inr r) => .ok r
      | .ok (.inl s) =>
        .ok { content :=
                (if true = true ∧ s.lastProcessedIndex < (original.length : Int) then
                  appendSlice s.result original s.lastProcessedIndex
                    (original.length : Int)
                else s.result),
              changedRegions := s.changedRegions, trace := s.trace }) :
        Except Str FileChangeResult) =
      .ok { content := renderBody R,
            changedRegions := [{
              startLine := 0, endLine := R.length,
              startOffset := 0, endOffset := ((renderBody R).length : Int) }],
            trace := [⟨0, (original.length : Int), renderBody R⟩] } := by
  rw [c6_run_core ⟨diffContent, original, true, li⟩ R (original.length : Int) hR3 hres]
  have h0 : getLineNumberFromOffset (renderBody R) 0 = 0 := by
    rw [getLineNumberFromOffset, jsSlice_zero_zero]
    rfl
  have h1 : getLineNumberFromOffset (renderBody R) ((renderBody R).length : Int) =
      R.length := by
    rw [getLineNumberFromOffset, jsSlice_zero_length]
    exact countNl_renderBody R hnl
  by_cases hcc : containsSub (remainingAfterFirstReplace diffContent) markerSearch = false
  · rw [if_pos ⟨rfl, hcc⟩]
    simp [closeBlockState, finishResult, initPState, h0, h1]
  · rw [if_neg (fun hand => hcc hand.2)]
    simp [closeBlockState, initPState, h0, h1]

/-- C6: when the search body is empty, the match resolution yields `(0, 0)` on
an empty original and `(0, len(original))` otherwise, and a single
empty-search block with replace lines `R` applied with `isFinal = true`
returns exactly the rendered replace body (each line followed by a newline,
empty when `R` is empty) with one change region covering the whole of it. -/
theorem c6_empty_search_full_replacement (original : Str) (cur : Int)
    (li : Option LineIndex) (R : List Str) (hR : ∀ l ∈ R, goodLine l) :
    resolveSearchMatch original cur [] li =
      .ok (0, if original.length = 0 then 0 else (original.length : Int)) ∧
    constructNewFileContent (renderDiff [⟨[], R⟩]) original true =
      .ok { content := renderBody R,
            changedRegions := [{
              startLine := 0, endLine := R.length,
              startOffset := 0, endOffset := ((renderBody R).length : Int) }],
            trace := [⟨0, (original.length : Int), renderBody R⟩] } := by
  refine ⟨resolveSearchMatch_empty original cur li, ?_⟩
  have hgood : ∀ b ∈ [({ search := [], replace := R } : SRBlock)], goodBlock b := by
    intro b hb
    rw [List.mem_singleton] at hb
    subst hb
    exact ⟨by simp, hR⟩
  have hcont := renderDiff_contains_marker [⟨[], R⟩] ⟨[], R⟩ [] rfl
  have hpop := renderDiff_nopop [⟨[], R⟩] hgood
  rw [constructNewFileContent_run _ _ _ hcont hpop]
  rw [splitNl_renderDiff [⟨[], R⟩] hgood]
  have hlines : diffLinesOf [({ search := [], replace := R } : SRBlock)] =
      markerSearch :: markerSep :: (R ++ [markerReplace, []]) := by
    simp [diffLinesOf, blockLines]
  rw [hlines]
  have hR3 : ∀ l ∈ R, l ≠ markerSearch ∧ l ≠ markerSep ∧ l ≠ markerReplace :=
    fun l hl => (hR l hl).2
  have hnl : ∀ l ∈ R, '\n' ∉ l := fun l hl => (hR l hl).1
  have hres : resolveSearchMatch original 0 [] (if shouldUseIndex original then
      some (LineIndex.build original) else none) = .ok (0, (original.length : Int)) := by
    rw [resolveSearchMatch_empty]
    by_cases h : original.length = 0 <;> simp [h]
  exact c6_run_full (renderDiff [⟨[], R⟩]) original _ R hR3 hnl hres

theorem c6_empty_search_full_replacement_witness :
    (∀ l ∈ [(['r'] : Str)], goodLine l) ∧
    (resolveSearchMatch ("ab".data) 0 [] none =
      .ok (0, if ("ab".data).length = 0 then 0 else ((("ab".data)).length : Int)) ∧
    constructNewFileContent (renderDiff [⟨[], [['r']]⟩]) ("ab".data) true =
      .ok { content := renderBody [['r']],
            changedRegions := [{
              startLine := 0, endLine := [(['r'] : Str)].length,
              startOffset := 0, endOffset := ((renderBody [['r']]).length : Int) }],
            trace := [⟨0, ((("ab".data)).length : Int), renderBody [['r']]⟩] }) :=
  have hg : ∀ l ∈ [(['r'] : Str)], goodLine l := by
    intro l hl
    rw [List.mem_singleton] at hl
    subst hl
    exact ⟨by decide, by decide, by decide, by decide⟩
  ⟨hg, c6_empty_search_full_replacement ("ab".data) 0 none [['r']] hg⟩

theorem dropWhile_dropWhile (p : Char → Bool) (l : Str) :
    (l.dropWhile p).dropWhile p = l.dropWhile p := by
  induction l with
  | nil => rfl
  | cons c t ih =>
    by_cases h : p c = true
    · simp [List.dropWhile_cons, h, ih]
    · simp [List.dropWhile_cons, h]

theorem trimStart_head (s : Str) :
    trimStart s = [] ∨ ∃ c t, trimStart s = c :: t ∧ isWs c = false := by
  induction s with
  | nil => exact Or.inl rfl
  | cons c t ih =>
    by_cases h : isWs c = true
    · simpa [trimStart, List.dropWhile_cons, h] using ih
    · refine Or.inr ⟨c, t, ?_, by simpa using h⟩
      simp [trimStart, List.dropWhile_cons, h]

theorem trimEndStr_prefix (s : Str) : trimEndStr s <+: s := by
  have h1 : s.reverse.dropWhile isWs <:+ s.reverse := List.dropWhile_suffix _
  have h2 : (s.reverse.dropWhile isWs).reverse <+: s.reverse.reverse :=
    List.reverse_prefix.mpr h1
  rwa [List.reverse_reverse] at h2

theorem trimEndStr_trimEndStr (s : Str) : trimEndStr (trimEndStr s) = trimEndStr s := by
  rw [trimEndStr, trimEndStr, List.reverse_reverse, dropWhile_dropWhile]

theorem trimStart_trimEndStr_trimStart (s : Str) :
    trimStart (trimEndStr (trimStart s)) = trimEndStr (trimStart s) := by
  rcases trimStart_head s with h | ⟨c, t, h, hc⟩
  · rw [h]
    rfl
  · rw [h]
    have hpre : trimEndStr (c :: t) <+: (c :: t) := trimEndStr_prefix (c :: t)
    cases he : trimEndStr (c :: t) with
    | nil => rfl
    | cons d u =>
      rw [he] at hpre
      obtain ⟨r, hr⟩ := hpre
      have hr2 : d :: (u ++ r) = c :: t := by simpa using hr
      have hd : d = c := (List.cons.injEq _ _ _ _).mp hr2 |>.1
      subst hd
      show trimStart (d :: u) = d :: u
      simp [trimStart, List.dropWhile_cons, hc]

theorem trimStr_idem (s : Str) : trimStr (trimStr s) = trimStr s := by
  show trimEndStr (trimStart (trimEndStr (trimStart s))) = trimEndStr (trimStart s)
  rw [trimStart_trimEndStr_trimStart, trimEndStr_trimEndStr]

theorem find?_fuse {α : Type} (p q : α → Bool) (l : List α) :
    (l.filter p).find? q = l.find? (fun x => p x && q x) := by
  induction l with
  | nil => rfl
  | cons a t ih =>
    by_cases hp : p a = true
    · by_cases hq : q a = true
      · rw [List.filter_cons_of_pos hp, List.find?_cons_of_pos _ hq,
          List.find?_cons_of_pos _ (by simp [hp, hq])]
      · rw [List.filter_cons_of_pos hp, List.find?_cons_of_neg _ (by simpa using hq),
          List.find?_cons_of_neg _ (by simp [hq]), ih]
    · rw [List.filter_cons_of_neg (by simpa using hp),
        List.find?_cons_of_neg _ (by simp [hp]), ih]

theorem find?_congrm {α : Type} (p q : α → Bool) (l : List α)
    (h : ∀ x ∈ l, p x = q x) : l.find? p = l.find? q := by
  induction l with
  | nil => rfl
  | cons a t ih =>
    have ha := h a (by simp)
    by_cases hp : p a = true
    · rw [List.find?_cons_of_pos _ hp, List.find?_cons_of_pos _ (ha ▸ hp)]
    · rw [List.find?_cons_of_neg _ (by simpa using hp),
        List.find?_cons_of_neg _ (by rw [← ha]; simpa using hp),
        ih (fun x hx => h x (by simp [hx]))]

theorem all_congrm {α : Type} (p q : α → Bool) (l : List α)
    (h : ∀ x ∈ l, p x = q x) : l.all p = l.all q := by
  induction l with
  | nil => rfl
  | cons a t ih =>
    rw [List.all_cons, List.all_cons, h a (by simp),
      ih (fun x hx => h x (by simp [hx]))]

theorem getLastD_eq_getD (l : List Str) :
    l.getLastD [] = l.getD (l.length - 1) [] := by
  rw [List.getLastD_eq_getLast?, List.getLast?_eq_getElem?, List.getD_eq_getElem?_getD]

theorem directEnd_eq_offUpTo (L : List Str) (pos k : Nat) (h : pos + k ≤ L.length) :
    directEnd L pos k = offUpTo L (pos + k) := by
  induction k with
  | zero => simp [directEnd]
  | succ j ih =>
    have hj : pos + j ≤ L.length := by omega
    have hlt : pos + j < L.length := by omega
    have hprev := ih hj
    rw [directEnd] at hprev ⊢
    rw [List.range_succ, List.map_append, List.sum_append]
    simp only [List.map_cons, List.map_nil, List.sum_cons, List.sum_nil]
    rw [show pos + (j + 1) = (pos + j) + 1 from rfl, offUpTo_succ_getD L (pos + j) hlt]
    omega

theorem getLineAt_eq_getD (li : LineIndex) (i : Nat) :
    li.getLineAt i = li.lines.getD i [] := by
  rw [LineIndex.getLineAt, List.getD_eq_getElem?_getD]

theorem mk_getOffsetForLine (L : List Str) (m : Nat) (h : m ≤ L.length) :
    LineIndex.getOffsetForLine ⟨L, buildOffsets L 0⟩ m = offUpTo L m := by
  simp [LineIndex.getOffsetForLine, buildOffsets_getElem? L 0 m h]

theorem indexedStartLine_zero (li : LineIndex) (h : li.lines ≠ []) :
    indexedStartLine li 0 = 0 := by
  rw [indexedStartLine]
  have hn : li.getLineCount = (li.getLineCount - 1) + 1 := by
    rw [LineIndex.getLineCount]
    cases hl : li.lines with
    | nil => exact absurd hl h
    | cons a t => simp
  rw [hn, List.range_succ_eq_map, List.find?_cons_of_pos _ (by simp)]

theorem directStartLine_zero (L : List Str) : directStartLine L 0 0 0 = 0 := by
  cases L with
  | nil => rfl
  | cons l t =>
    rw [directStartLine, if_neg (by omega)]

theorem fullMatch_eq (L S : List Str) (pos : Nat) (h : pos + S.length ≤ L.length) :
    liFullMatch ⟨L, buildOffsets L 0⟩ S pos = directFullMatch L S pos := by
  rw [liFullMatch, directFullMatch]
  apply all_congrm
  intro i hi
  rw [List.mem_range] at hi
  have hlt : pos + i < L.length := by omega
  rw [getLineAt_eq_getD]
  simp [hlt]

theorem findPotential_find?_eq (L S : List Str) (hS : S ≠ []) :
    (LineIndex.findPotentialMatches ⟨L, buildOffsets L 0⟩ S 0).find?
        (liFullMatch ⟨L, buildOffsets L 0⟩ S) =
      (directPositions L 0 S.length (trimStr (S.getD 0 []))).find?
        (directFullMatch L S) := by
  have hk0 : S.length ≠ 0 := fun h => hS (List.length_eq_zero.mp h)
  have hlines : (⟨L, buildOffsets L 0⟩ : LineIndex).lines = L := rfl
  rw [directPositions, find?_fuse, LineIndex.findPotentialMatches, if_neg hk0]
  by_cases h1 : S.length = 1
  · rw [if_pos h1, LineIndex.getPositionsForLine, find?_fuse, find?_fuse, hlines]
    apply find?_congrm
    intro i hi
    rw [List.mem_range] at hi
    have hFM := fullMatch_eq L S i (by omega)
    have hz : (decide ((0 : Nat) ≤ i)) = true := by simp
    have hb : (decide (i + S.length ≤ L.length)) = true := by
      simp only [decide_eq_true_eq]
      omega
    rw [getLineAt_eq_getD, hlines, hFM, hz, hb]
    cases trimStr (L.getD i []) == trimStr (S.getD 0 []) <;>
      cases directFullMatch L S i <;> simp
  · rw [if_neg h1]
    have hFP : (if (((List.range L.length).filter (fun i =>
          trimStr (LineIndex.getLineAt ⟨L, buildOffsets L 0⟩ i) ==
            trimStr (trimStr (S.getD 0 [])))).filter
            (fun pos => decide ((0 : Nat) ≤ pos))).isEmpty then ([] : List Nat)
        else (((List.range L.length).filter (fun i =>
          trimStr (LineIndex.getLineAt ⟨L, buildOffsets L 0⟩ i) ==
            trimStr (trimStr (S.getD 0 [])))).filter
            (fun pos => decide ((0 : Nat) ≤ pos))).filter
          (fun pos => decide (pos + S.length - 1 < L.length) &&
            (trimStr (LineIndex.getLineAt ⟨L, buildOffsets L 0⟩ (pos + S.length - 1)) ==
              trimStr (S.getLastD [])))) =
        (let firstLine := trimStr (S.getD 0 [])
        let lastLine := trimStr (S.getLastD [])
        let firstLinePositions :=
          ((⟨L, buildOffsets L 0⟩ : LineIndex).getPositionsForLine firstLine).filter
            (fun pos => decide ((0 : Nat) ≤ pos))
        if firstLinePositions.isEmpty then []
        else
          firstLinePositions.filter (fun pos =>
            decide (pos + S.length - 1 < (⟨L, buildOffsets L 0⟩ : LineIndex).lines.length) &&
              (trimStr ((⟨L, buildOffsets L 0⟩ : LineIndex).getLineAt
                (pos + S.length - 1)) == lastLine))) := rfl
    rw [← hFP]
    split_ifs with hfe
    · rw [List.find?_nil]
      cases hf : (List.range L.length).find? (fun i =>
          (decide ((0 : Nat) ≤ i) && decide (i + S.length ≤ L.length) &&
            (trimStr (L.getD i []) == trimStr (S.getD 0 []))) &&
          directFullMatch L S i) with
      | none => rfl
      | some pos =>
        exfalso
        have hp := List.find?_some hf
        have hmem := List.mem_of_find?_eq_some hf
        rw [List.mem_range] at hmem
        simp only [Bool.and_eq_true, decide_eq_true_eq] at hp
        have hA : (trimStr (LineIndex.getLineAt ⟨L, buildOffsets L 0⟩ pos) ==
            trimStr (trimStr (S.getD 0 []))) = true := by
          rw [getLineAt_eq_getD, hlines, trimStr_idem]
          exact hp.1.2
        have hmemX : pos ∈ ((List.range L.length).filter (fun i =>
            trimStr (LineIndex.getLineAt ⟨L, buildOffsets L 0⟩ i) ==
              trimStr (trimStr (S.getD 0 [])))).filter
            (fun pos => decide ((0 : Nat) ≤ pos)) := by
          rw [List.mem_filter, List.mem_filter, List.mem_range]
          exact ⟨⟨hmem, hA⟩, by simp⟩
        rw [List.isEmpty_iff] at hfe
        rw [hfe] at hmemX
        simp at hmemX
    · rw [find?_fuse, find?_fuse, find?_fuse]
      apply find?_congrm
      intro i hi
      rw [List.mem_range] at hi
      by_cases hb : i + S.length ≤ L.length
      · have hFM := fullMatch_eq L S i hb
        have hb1 : (decide (i + S.length - 1 < L.length)) = true := by
          simp only [decide_eq_true_eq]
          omega
        have hb2 : (decide (i + S.length ≤ L.length)) = true := by
          simp only [decide_eq_true_eq]
          omega
        rw [getLineAt_eq_getD, getLineAt_eq_getD, hlines, trimStr_idem, hFM, hb1, hb2]
        by_cases hm : directFullMatch L S i = true
        · have hlast : (trimStr (L.getD (i + S.length - 1) []) ==
              trimStr (S.getLastD [])) = true := by
            rw [getLastD_eq_getD]
            rw [directFullMatch] at hm
            have hall := List.all_eq_true.mp hm (S.length - 1)
              (List.mem_range.mpr (by omega))
            rw [show i + S.length - 1 = i + (S.length - 1) from by omega]
            simpa using hall
          rw [hm, hlast]
          cases trimStr (L.getD i []) == trimStr (S.getD 0 []) <;> simp
        · have hm2 : directFullMatch L S i = false := by
            cases h : directFullMatch L S i
            · rfl
            · exact absurd h hm
          rw [hm2]
          cases trimStr (L.getD i []) == trimStr (S.getD 0 []) <;> simp
      · have hb1 : (decide (i + S.length - 1 < L.length)) = false := by
          simp only [decide_eq_false_iff_not]
          omega
        have hb2 : (decide (i + S.length ≤ L.length)) = false := by
          simp only [decide_eq_false_iff_not]
          omega
        rw [hb1, hb2]
        simp

theorem lineTrimmedScan_zero_eq (L S : List Str) (hS : S ≠ []) :
    lineTrimmedScan L S 0 =
      match (directPositions L 0 S.length (trimStr (S.getD 0 []))).find?
          (directFullMatch L S) with
      | none => none
      | some pos => some (offUpTo L pos, directEnd L pos S.length) := by
  have hk0 : S.length ≠ 0 := fun h => hS (List.length_eq_zero.mp h)
  rw [lineTrimmedScan]
  by_cases h1 : 1 < S.length
  · rw [if_pos h1]
    by_cases h2 : (directPositions L 0 S.length (trimStr (S.getD 0 []))).isEmpty = true
    · rw [if_pos h2, if_neg (by simp)]
      rw [List.isEmpty_iff] at h2
      rw [h2, List.find?_nil]
    · rw [if_neg h2]
      by_cases h3 : (directPositions L 0 S.length (trimStr (S.getD 0 []))).any
          (fun p => decide (p + S.length - 1 < L.length) &&
            (trimStr (L.getD (p + S.length - 1) []) ==
              trimStr (S.getLastD []))) = true
      · rw [if_pos h3]
      · rw [if_neg h3]
        cases hf : (directPositions L 0 S.length (trimStr (S.getD 0 []))).find?
            (directFullMatch L S) with
        | none => rfl
        | some pos =>
          exfalso
          apply h3
          have hdm := List.find?_some hf
          have hmem := List.mem_of_find?_eq_some hf
          have hb := directPositions_bounds hmem
          rw [List.any_eq_true]
          refine ⟨pos, hmem, ?_⟩
          have hlt : pos + S.length - 1 < L.length := by omega
          have hlast : (trimStr (L.getD (pos + S.length - 1) []) ==
              trimStr (S.getLastD [])) = true := by
            rw [getLastD_eq_getD]
            rw [directFullMatch] at hdm
            have hall := List.all_eq_true.mp hdm (S.length - 1)
              (List.mem_range.mpr (by omega))
            rw [show pos + S.length - 1 = pos + (S.length - 1) from by omega]
            simpa using hall
          rw [Bool.and_eq_true]
          exact ⟨by simpa using hlt, hlast⟩
  · rw [if_neg h1, if_pos rfl]

theorem findExactMatch_eq_scan (L S : List Str) (hS : S ≠ []) :
    LineIndex.findExactMatch ⟨L, buildOffsets L 0⟩ S 0 = lineTrimmedScan L S 0 := by
  have hk0 : S.length ≠ 0 := fun h => hS (List.length_eq_zero.mp h)
  rw [lineTrimmedScan_zero_eq L S hS, LineIndex.findExactMatch,
    findPotential_find?_eq L S hS]
  cases hf : (directPositions L 0 S.length (trimStr (S.getD 0 []))).find?
      (directFullMatch L S) with
  | none => rfl
  | some pos =>
    have hmem := List.mem_of_find?_eq_some hf
    have hb := directPositions_bounds hmem
    have hpos_le : pos ≤ L.length := by omega
    have hend_le : pos + S.length ≤ L.length := hb.2
    show some (LineIndex.getOffsetForLine ⟨L, buildOffsets L 0⟩ pos,
        if pos + S.length < L.length then
          LineIndex.getOffsetForLine ⟨L, buildOffsets L 0⟩ (pos + S.length)
        else
          LineIndex.getOffsetForLine ⟨L, buildOffsets L 0⟩ (L.length - 1) +
            (LineIndex.getLineAt ⟨L, buildOffsets L 0⟩ (L.length - 1)).length + 1) =
      some (offUpTo L pos, directEnd L pos S.length)
    rw [mk_getOffsetForLine L pos hpos_le, directEnd_eq_offUpTo L pos S.length hend_le]
    by_cases hlt : pos + S.length < L.length
    · rw [if_pos hlt, mk_getOffsetForLine L (pos + S.length) (by omega)]
    · rw [if_neg hlt]
      have heq : pos + S.length = L.length := by omega
      have hn1 : L.length - 1 < L.length := by omega
      rw [mk_getOffsetForLine L (L.length - 1) (by omega), getLineAt_eq_getD]
      have hstep := offUpTo_succ_getD L (L.length - 1) hn1
      rw [show L.length - 1 + 1 = L.length from by omega] at hstep
      rw [heq, hstep]
      show some (offUpTo L pos, offUpTo L (L.length - 1) +
        ((⟨L, buildOffsets L 0⟩ : LineIndex).lines.getD (L.length - 1) []).length + 1) = _
      have hlget : (⟨L, buildOffsets L 0⟩ : LineIndex).lines.getD (L.length - 1) [] =
          L.getD (L.length - 1) [] := rfl
      rw [hlget]
      rw [Nat.add_assoc]

theorem lineTrimmedIndexed_eq_direct_zero (c s : Str) :
    lineTrimmedIndexed (LineIndex.build c) s 0 = lineTrimmedDirect c s 0 := by
  have hLne := splitNl_ne_nil c
  have hSne := splitNl_ne_nil s
  have hSlen : (splitNl s).length ≠ 0 := fun h => hSne (List.length_eq_zero.mp h)
  have hLlen : (splitNl c).length ≠ 0 := fun h => hLne (List.length_eq_zero.mp h)
  have hpos : (decide (0 < (splitNl s).length) &&
      ((splitNl s).getLastD [] == ([] : Str))) =
      ((splitNl s).getLastD [] == ([] : Str)) := by
    have h0 : (decide (0 < (splitNl s).length)) = true := by
      simp only [decide_eq_true_eq]
      omega
    rw [h0, Bool.true_and]
  rw [lineTrimmedIndexed, lineTrimmedDirect, hpos]
  rw [if_neg (show ¬ ((decide ((splitNl s).length = 0) ||
    decide ((splitNl c).length = 0)) = true) from by simp [hSlen, hLlen])]
  by_cases hz : (if ((splitNl s).getLastD [] == ([] : Str)) = true then
      (splitNl s).dropLast else splitNl s).length = 0
  · rw [if_pos hz, if_pos hz]
  · rw [if_neg hz, if_neg hz, indexedStartLine_zero _ hLne, directStartLine_zero]
    exact findExactMatch_eq_scan (splitNl c) _ (fun h => hz (by rw [h]; rfl))

theorem blockAnchorIndexScan_eq (L S : List Str) (hS2 : 2 ≤ S.length) :
    blockAnchorIndexScan ⟨L, buildOffsets L 0⟩ S 0 = blockAnchorScan L S 0 := by
  have hlines : (⟨L, buildOffsets L 0⟩ : LineIndex).lines = L := rfl
  have hcount : (⟨L, buildOffsets L 0⟩ : LineIndex).getLineCount = L.length := rfl
  have hfind : (((⟨L, buildOffsets L 0⟩ : LineIndex).getPositionsForLine
        (trimStr (S.getD 0 []))).filter (fun pos => decide ((0 : Nat) ≤ pos))).find?
        (fun pos => decide (pos + S.length - 1 <
            (⟨L, buildOffsets L 0⟩ : LineIndex).getLineCount) &&
          (trimStr ((⟨L, buildOffsets L 0⟩ : LineIndex).getLineAt (pos + S.length - 1)) ==
            trimStr (S.getLastD []))) =
      (List.range L.length).find? (fun i =>
        decide ((0 : Nat) ≤ i) && decide (i + S.length ≤ L.length) &&
          (trimStr (L.getD i []) == trimStr (S.getD 0 [])) &&
          (trimStr (L.getD (i + S.length - 1) []) == trimStr (S.getLastD []))) := by
    rw [LineIndex.getPositionsForLine, find?_fuse, find?_fuse, hlines]
    apply find?_congrm
    intro i hi
    rw [List.mem_range] at hi
    rw [getLineAt_eq_getD, getLineAt_eq_getD, hlines, trimStr_idem, hcount]
    by_cases hb : i + S.length ≤ L.length
    · have hb1 : (decide (i + S.length - 1 < L.length)) = true := by
        simp only [decide_eq_true_eq]
        omega
      have hb2 : (decide (i + S.length ≤ L.length)) = true := by
        simp only [decide_eq_true_eq]
        omega
      rw [hb1, hb2]
      cases trimStr (L.getD i []) == trimStr (S.getD 0 []) <;>
        cases trimStr (L.getD (i + S.length - 1) []) == trimStr (S.getLastD []) <;> simp
    · have hb1 : (decide (i + S.length - 1 < L.length)) = false := by
        simp only [decide_eq_false_iff_not]
        omega
      have hb2 : (decide (i + S.length ≤ L.length)) = false := by
        simp only [decide_eq_false_iff_not]
        omega
      rw [hb1, hb2]
      simp
  rw [blockAnchorIndexScan, blockAnchorScan, hfind]
  cases hf : (List.range L.length).find? (fun i =>
      decide ((0 : Nat) ≤ i) && decide (i + S.length ≤ L.length) &&
        (trimStr (L.getD i []) == trimStr (S.getD 0 [])) &&
        (trimStr (L.getD (i + S.length - 1) []) == trimStr (S.getLastD []))) with
  | none => rfl
  | some pos =>
    have hp := List.find?_some hf
    simp only [Bool.and_eq_true, decide_eq_true_eq] at hp
    have hble : pos + S.length ≤ L.length := hp.1.1.2
    show some (LineIndex.getOffsetForLine ⟨L, buildOffsets L 0⟩ pos,
        LineIndex.getOffsetForLine ⟨L, buildOffsets L 0⟩ (pos + S.length - 1 + 1)) =
      some (offUpTo L pos, directEnd L pos S.length)
    have he : pos + S.length - 1 + 1 = pos + S.length := by omega
    rw [he, mk_getOffsetForLine L pos (by omega),
      mk_getOffsetForLine L (pos + S.length) hble,
      directEnd_eq_offUpTo L pos S.length hble]

theorem blockAnchorIndexed_eq_direct_zero (c s : Str) :
    blockAnchorIndexed (LineIndex.build c) s 0 = blockAnchorDirect c s 0 := by
  have hLne := splitNl_ne_nil c
  have hSne := splitNl_ne_nil s
  have hpos : (decide (0 < (splitNl s).length) &&
      ((splitNl s).getLastD [] == ([] : Str))) =
      ((splitNl s).getLastD [] == ([] : Str)) := by
    have h0 : (decide (0 < (splitNl s).length)) = true := by
      simp only [decide_eq_true_eq]
      cases h : splitNl s with
      | nil => exact absurd h hSne
      | cons a t => simp
    rw [h0, Bool.true_and]
  rw [blockAnchorIndexed, blockAnchorDirect, hpos]
  by_cases h3 : (splitNl s).length < 3
  · rw [if_pos h3, if_pos h3]
  · rw [if_neg h3, if_neg h3, indexedStartLine_zero _ hLne, directStartLine_zero]
    have hk2 : 2 ≤ (if ((splitNl s).getLastD [] == ([] : Str)) = true then
        (splitNl s).dropLast else splitNl s).length := by
      by_cases hp : ((splitNl s).getLastD [] == ([] : Str)) = true
      · rw [if_pos hp, List.length_dropLast]
        omega
      · rw [if_neg hp]
        omega
    exact blockAnchorIndexScan_eq (splitNl c) _ hk2

/-- C9 (amended): with the cursor at `0` the indexed fast path and the direct
line-scan path agree: for every original content and search content,
`lineTrimmedFallbackMatch` and `blockAnchorFallbackMatch` return the same
result when given a `LineIndex` built from the original content as when given
none.  (With a nonzero cursor the two paths can disagree: the indexed
start-line computation steps back one line below the cursor — see the
counterexample.) -/
theorem c9_index_direct_agree_at_cursor_zero (originalContent searchContent : Str) :
    lineTrimmedFallbackMatch originalContent searchContent 0
        (some (LineIndex.build originalContent)) =
      lineTrimmedFallbackMatch originalContent searchContent 0 none ∧
    blockAnchorFallbackMatch originalContent searchContent 0
        (some (LineIndex.build originalContent)) =
      blockAnchorFallbackMatch originalContent searchContent 0 none := by
  constructor
  · show (if shouldUseIndex originalContent then
        lineTrimmedIndexed (LineIndex.build originalContent) searchContent 0
      else lineTrimmedDirect originalContent searchContent 0) =
      lineTrimmedDirect originalContent searchContent 0
    by_cases hs : shouldUseIndex originalContent = true
    · rw [if_pos hs]
      exact lineTrimmedIndexed_eq_direct_zero originalContent searchContent
    · rw [if_neg hs]
  · show (if shouldUseIndex originalContent then
        blockAnchorIndexed (LineIndex.build originalContent) searchContent 0
      else blockAnchorDirect originalContent searchContent 0) =
      blockAnchorDirect originalContent searchContent 0
    by_cases hs : shouldUseIndex originalContent = true
    · rw [if_pos hs]
      exact blockAnchorIndexed_eq_direct_zero originalContent searchContent
    · rw [if_neg hs]

theorem jsSlice_self (s : Str) (a : Int) : jsSlice s a a = [] := by
  rw [jsSlice]
  apply List.drop_eq_nil_of_le
  simp [List.length_take]

theorem initPState_clean : initPState = cleanState [] 0 [] 0 [] := rfl

theorem contentOf_interleave (original : Str) (T : List AppliedBlock) :
    ∀ (acc : Str) (cur : Int), TraceOrdered original cur T →
      contentOf original acc cur T = acc ++ interleave original cur T := by
  induction T with
  | nil =>
    intro acc cur hord
    rw [contentOf, interleave]
    by_cases h : cur < (original.length : Int)
    · rw [if_pos h]
    · rw [if_neg h]
      have he : cur = (original.length : Int) := le_antisymm hord (not_lt.mp h)
      rw [he, jsSlice_self, List.append_nil]
  | cons b bs ih =>
    intro acc cur hord
    obtain ⟨h1, h2, h3⟩ := hord
    rw [contentOf, interleave, ih _ b.matchEnd h3]
    by_cases h : cur < b.matchStart
    · rw [if_pos h]
      simp [List.append_assoc]
    · rw [if_neg h]
      have he : b.matchStart = cur := le_antisymm (not_lt.mp h) h1
      rw [he, jsSlice_self]
      simp

theorem containsSub_of_mid (pat A B : Str) :
    containsSub (A ++ pat ++ B) pat = true := by
  induction A with
  | nil =>
    apply containsSub_of_isPrefixOf
    rw [List.isPrefixOf_iff_prefix]
    simp
  | cons c t ih =>
    show containsSub (c :: (t ++ pat ++ B)) pat = true
    rw [show containsSub (c :: (t ++ pat ++ B)) pat =
      (pat.isPrefixOf (c :: (t ++ pat ++ B)) || containsSub (t ++ pat ++ B) pat)
      from rfl, ih, Bool.or_true]

theorem subIndex?_le_prefix (pat B : Str) : ∀ A : Str,
    ∃ m, subIndex? (A ++ pat ++ B) pat = some m ∧ m ≤ A.length := by
  intro A
  induction A with
  | nil =>
    refine ⟨0, ?_, le_refl 0⟩
    have hpre : pat.isPrefixOf (pat ++ B) = true := by
      rw [List.isPrefixOf_iff_prefix]
      exact List.prefix_append pat B
    show subIndex? (pat ++ B) pat = some 0
    cases hpb : pat ++ B with
    | nil =>
      rw [hpb] at hpre
      simp only [subIndex?, hpre]
      simp
    | cons c t =>
      rw [hpb] at hpre
      simp only [subIndex?, hpre]
      simp
  | cons c A2 ih =>
    obtain ⟨m, hm, hle⟩ := ih
    by_cases hp : pat.isPrefixOf (c :: (A2 ++ pat ++ B)) = true
    · refine ⟨0, ?_, by simp⟩
      show subIndex? (c :: (A2 ++ pat ++ B)) pat = some 0
      simp only [subIndex?]
      rw [if_pos hp]
    · refine ⟨m + 1, ?_, by simp only [List.length_cons]; omega⟩
      show subIndex? (c :: (A2 ++ pat ++ B)) pat = some (m + 1)
      simp only [subIndex?]
      rw [if_neg hp, hm]
      rfl

theorem joinNl_append_ne (xs ys : List Str) (hxs : xs ≠ []) (hys : ys ≠ []) :
    joinNl (xs ++ ys) = joinNl xs ++ '\n' :: joinNl ys := by
  induction xs with
  | nil => exact absurd rfl hxs
  | cons x xt ih =>
    cases xt with
    | nil =>
      show joinNl (x :: ys) = joinNl [x] ++ '\n' :: joinNl ys
      rw [joinNl_cons_of_ne x ys hys]
      rfl
    | cons y yt =>
      have ihh := ih (by simp)
      show joinNl (x :: ((y :: yt) ++ ys)) = _
      rw [joinNl_cons_of_ne x ((y :: yt) ++ ys) (by simp), ihh,
        joinNl_cons_of_ne x (y :: yt) (by simp)]
      simp [List.append_assoc]

theorem jsSlice_nat_len (s : Str) (a : Nat) :
    jsSlice s (a : Int) (s.length : Int) = s.drop a := by
  rw [jsSlice]
  have h1 : jsIdx s.length (s.length : Int) = s.length := by simp [jsIdx]
  have h2 : jsIdx s.length (a : Int) = min a s.length := by simp [jsIdx]
  rw [h1, h2, List.take_length]
  by_cases h : a ≤ s.length
  · rw [min_eq_left h]
  · rw [min_eq_right (by omega), List.drop_length, List.drop_eq_nil_of_le (by omega)]

theorem runLines_search_accum (ctx : PCtx) (SL rest : List Str) (s : PState)
    (hSL : ∀ l ∈ SL, l ≠ markerSearch ∧ l ≠ markerSep ∧ l ≠ markerReplace)
    (hs : s.inSearch = true) :
    runLines ctx (SL ++ rest) s =
      runLines ctx rest { s with searchSegments := s.searchSegments ++ SL } := by
  induction SL generalizing s with
  | nil => simp
  | cons l t ih =>
    have hl := hSL l (by simp)
    rw [List.cons_append, runLines, stepLine_search_accum ctx s l hl.1 hl.2.1 hl.2.2 hs]
    show runLines ctx (t ++ rest) _ = _
    refine (ih { s with searchSegments := s.searchSegments ++ [l] }
      (fun m hm => hSL m (by simp [hm])) hs).trans ?_
    congr 1
    simp [List.append_assoc]

theorem bmLoop_nonneg (text pattern : Str) :
    ∀ (fuel : Nat) (off : Int), 0 ≤ off →
      bmLoop text pattern fuel off = -1 ∨ 0 ≤ bmLoop text pattern fuel off := by
  intro fuel
  induction fuel with
  | zero =>
    intro off h
    exact Or.inl rfl
  | succ f ih =>
    intro off hoff
    rw [bmLoop]
    by_cases hle : off ≤ (text.length : Int) - (pattern.length : Int)
    · rw [if_pos hle]
      cases hscan : bmScan text pattern off pattern.length with
      | none => exact Or.inr hoff
      | some j => exact ih _ (by omega)
    · rw [if_neg hle]
      exact Or.inl rfl

theorem boyerMooreSearch_nonneg (text pattern : Str) (sp : Int) (hsp : 0 ≤ sp) :
    boyerMooreSearch text pattern sp = -1 ∨ 0 ≤ boyerMooreSearch text pattern sp := by
  rw [boyerMooreSearch]
  by_cases h0 : pattern.length = 0
  · rw [if_pos h0]
    exact Or.inr hsp
  · rw [if_neg h0]
    by_cases h1 : (pattern.length : Int) > (text.length : Int) - sp
    · rw [if_pos h1]
      exact Or.inl rfl
    · rw [if_neg h1]
      exact bmLoop_nonneg text pattern _ sp hsp

theorem resolveSearchMatch_ok_nonneg (oc : Str) (cur : Int) (cs : Str)
    (li : Option LineIndex) (smi sei : Int) (hcur : 0 ≤ cur)
    (h : resolveSearchMatch oc cur cs li = .ok (smi, sei)) :
    0 ≤ smi ∧ 0 ≤ sei := by
  rw [resolveSearchMatch] at h
  by_cases he : cs.isEmpty = true
  · rw [if_pos he] at h
    by_cases h0 : oc.length = 0
    · rw [if_pos h0] at h
      simp only [Except.ok.injEq, Prod.mk.injEq] at h
      omega
    · rw [if_neg h0] at h
      simp only [Except.ok.injEq, Prod.mk.injEq] at h
      obtain ⟨h1, h2⟩ := h
      constructor <;> omega
  · rw [if_neg he] at h
    by_cases hx : boyerMooreSearch oc cs cur ≠ -1
    · rw [if_pos hx] at h
      simp only [Except.ok.injEq, Prod.mk.injEq] at h
      obtain ⟨h1, h2⟩ := h
      rcases boyerMooreSearch_nonneg oc cs cur hcur with hh | hh
      · exact absurd hh hx
      · constructor <;> omega
    · rw [if_neg hx] at h
      cases hlt : lineTrimmedFallbackMatch oc cs cur li with
      | some p =>
        rw [hlt] at h
        obtain ⟨a, b⟩ := p
        simp only [Except.ok.injEq, Prod.mk.injEq] at h
        obtain ⟨h1, h2⟩ := h
        constructor <;> omega
      | none =>
        rw [hlt] at h
        cases hba : blockAnchorFallbackMatch oc cs cur li with
        | some p =>
          rw [hba] at h
          obtain ⟨a, b⟩ := p
          simp only [Except.ok.injEq, Prod.mk.injEq] at h
          obtain ⟨h1, h2⟩ := h
          constructor <;> omega
        | none =>
          rw [hba] at h
          simp at h

theorem runBlockPrefix (ctx : PCtx) (b : SRBlock) (rest : List Str)
    (RES : Str) (CUR : Int) (REGS : List ChangeRegion) (RLEN : Int)
    (TR : List AppliedBlock) (hgb : goodBlock b) (hcur : 0 ≤ CUR) :
    (∃ m, resolveSearchMatch ctx.originalContent CUR (currentSearch b.search)
        ctx.lineIndex = .error m ∧
      runLines ctx (blockLines b ++ rest) (cleanState RES CUR REGS RLEN TR) =
        .error m) ∨
    (∃ smi sei, resolveSearchMatch ctx.originalContent CUR (currentSearch b.search)
        ctx.lineIndex = .ok (smi, sei) ∧ 0 ≤ smi ∧ 0 ≤ sei ∧
      runLines ctx (blockLines b ++ rest) (cleanState RES CUR REGS RLEN TR) =
        runLines ctx (markerReplace :: rest)
          { result := (if CUR < smi then RES ++ jsSlice ctx.originalContent CUR smi
              else RES) ++ renderBody b.replace,
            lastProcessedIndex := CUR,
            changedRegions := REGS,
            resultLength := (if CUR < smi then RLEN + (smi - CUR) else RLEN) +
              ((renderBody b.replace).length : Int),
            searchSegments := b.search,
            replaceSegments := b.replace,
            inSearch := false, inReplace := true,
            searchMatchIndex := smi, searchEndIndex := sei,
            replacementStartOffset := (if CUR < smi then RLEN + (smi - CUR) else RLEN),
            trace := TR, curEmit := renderBody b.replace }) := by
  have hrun1 : runLines ctx (blockLines b ++ rest) (cleanState RES CUR REGS RLEN TR) =
      runLines ctx (markerSep :: (b.replace ++ (markerReplace :: rest)))
        { cleanState RES CUR REGS RLEN TR with
          inSearch := true, searchSegments := b.search } := by
    rw [show blockLines b ++ rest =
      markerSearch :: (b.search ++ (markerSep :: (b.replace ++ (markerReplace :: rest))))
      from by simp [blockLines]]
    rw [runLines, stepLine_search_marker ctx _ rfl rfl]
    show runLines ctx
      (b.search ++ (markerSep :: (b.replace ++ (markerReplace :: rest))))
      { cleanState RES CUR REGS RLEN TR with inSearch := true } = _
    rw [runLines_search_accum ctx b.search _ _ (fun l hl => (hgb.1 l hl).2) rfl]
    congr 1
  cases hres : resolveSearchMatch ctx.originalContent CUR (currentSearch b.search)
      ctx.lineIndex with
  | error m =>
    refine Or.inl ⟨m, rfl, ?_⟩
    rw [hrun1, runLines, stepLine_sep_marker_err ctx _ m hres]
  | ok p =>
    obtain ⟨smi, sei⟩ := p
    have h0 := resolveSearchMatch_ok_nonneg ctx.originalContent CUR
      (currentSearch b.search) ctx.lineIndex smi sei hcur hres
    refine Or.inr ⟨smi, sei, rfl, h0.1, h0.2, ?_⟩
    rw [hrun1]
    by_cases hlt : CUR < smi
    · rw [runLines, stepLine_sep_marker_move ctx _ smi sei hres hlt]
      show runLines ctx (b.replace ++ (markerReplace :: rest)) _ = _
      rw [runLines_replace_emit ctx b.replace (markerReplace :: rest) _
        (fun l hl => (hgb.2 l hl).2) rfl rfl (show smi ≠ -1 by omega)]
      congr 1
      simp [cleanState, appendSlice, hlt]
    · rw [runLines, stepLine_sep_marker_nomove ctx _ smi sei hres hlt]
      show runLines ctx (b.replace ++ (markerReplace :: rest)) _ = _
      rw [runLines_replace_emit ctx b.replace (markerReplace :: rest) _
        (fun l hl => (hgb.2 l hl).2) rfl rfl (show smi ≠ -1 by omega)]
      congr 1
      simp [cleanState, hlt]

theorem runLines_close_cont (ctx : PCtx) (ls : List Str) (s : PState)
    (h1 : s.searchMatchIndex ≠ -1) (h2 : s.replacementStartOffset ≠ -1)
    (hfc : ctx.isFinal = false ∨
      containsSub (remainingAfterFirstReplace ctx.diffContent) markerSearch = true) :
    runLines ctx (markerReplace :: ls) s = runLines ctx ls (closeBlockState s) := by
  rw [runLines, stepLine_replace_marker_cont ctx s h1 h2 hfc]

theorem runLines_close_finish (ctx : PCtx) (ls : List Str) (s : PState)
    (h1 : s.searchMatchIndex ≠ -1) (h2 : s.replacementStartOffset ≠ -1)
    (hfin : ctx.isFinal = true)
    (hc : containsSub (remainingAfterFirstReplace ctx.diffContent) markerSearch = false) :
    runLines ctx (markerReplace :: ls) s =
      .ok (.inr (finishResult ctx (closeBlockState s))) := by
  rw [runLines, stepLine_replace_marker_finish ctx s h1 h2 hfin hc]

theorem runBlocksCont (ctx : PCtx)
    (hfc : ctx.isFinal = false ∨
      containsSub (remainingAfterFirstReplace ctx.diffContent) markerSearch = true)
    (blocks : List SRBlock) :
    ∀ (rest : List Str) (RES : Str) (CUR : Int) (REGS : List ChangeRegion)
      (RLEN : Int) (TR : List AppliedBlock),
      (∀ b ∈ blocks, goodBlock b) → 0 ≤ CUR → 0 ≤ RLEN →
      (∃ m, applyBlocks ctx.originalContent ctx.lineIndex RES CUR TR blocks =
          .error m ∧
        runLines ctx ((blocks.map blockLines).flatten ++ rest)
          (cleanState RES CUR REGS RLEN TR) = .error m) ∨
      (∃ RES2 CUR2 TR2 REGS2 RLEN2,
        applyBlocks ctx.originalContent ctx.lineIndex RES CUR TR blocks =
          .ok (RES2, CUR2, TR2) ∧ 0 ≤ CUR2 ∧ 0 ≤ RLEN2 ∧
        runLines ctx ((blocks.map blockLines).flatten ++ rest)
          (cleanState RES CUR REGS RLEN TR) =
          runLines ctx rest (cleanState RES2 CUR2 REGS2 RLEN2 TR2)) := by
  induction blocks with
  | nil =>
    intro rest RES CUR REGS RLEN TR hg hc hr
    right
    exact ⟨RES, CUR, TR, REGS, RLEN, rfl, hc, hr, rfl⟩
  | cons b bs ih =>
    intro rest RES CUR REGS RLEN TR hg hc hr
    have hflat : ((b :: bs).map blockLines).flatten ++ rest =
        blockLines b ++ ((bs.map blockLines).flatten ++ rest) := by simp
    rw [hflat]
    rcases runBlockPrefix ctx b ((bs.map blockLines).flatten ++ rest) RES CUR REGS
        RLEN TR (hg b (by simp)) hc with
      ⟨m, hresm, hrunm⟩ | ⟨smi, sei, hres, hsmi, hsei, hrun⟩
    · left
      refine ⟨m, ?_, hrunm⟩
      rw [applyBlocks, hresm]
    · have hT := hrun.trans (runLines_close_cont ctx
        ((bs.map blockLines).flatten ++ rest) _
        (show smi ≠ -1 by omega)
        (show (if CUR < smi then RLEN + (smi - CUR) else RLEN) ≠ -1 by
          split_ifs <;> omega) hfc)
      have happ : applyBlocks ctx.originalContent ctx.lineIndex RES CUR TR (b :: bs) =
          applyBlocks ctx.originalContent ctx.lineIndex
            ((if CUR < smi then RES ++ jsSlice ctx.originalContent CUR smi else RES) ++
              renderBody b.replace)
            sei (TR ++ [⟨smi, sei, renderBody b.replace⟩]) bs := by
        rw [applyBlocks, hres]
      have hg2 : ∀ x ∈ bs, goodBlock x := fun x hx => hg x (by simp [hx])
      have hr2 : 0 ≤ (if CUR < smi then RLEN + (smi - CUR) else RLEN) +
          ((renderBody b.replace).length : Int) := by
        split_ifs <;> omega
      rcases ih rest
          ((if CUR < smi then RES ++ jsSlice ctx.originalContent CUR smi else RES) ++
            renderBody b.replace)
          sei
          (REGS ++ [{
            startLine := getLineNumberFromOffset
              ((if CUR < smi then RES ++ jsSlice ctx.originalContent CUR smi
                else RES) ++ renderBody b.replace)
              (if CUR < smi then RLEN + (smi - CUR) else RLEN),
            endLine := getLineNumberFromOffset
              ((if CUR < smi then RES ++ jsSlice ctx.originalContent CUR smi
                else RES) ++ renderBody b.replace)
              ((if CUR < smi then RLEN + (smi - CUR) else RLEN) +
                ((renderBody b.replace).length : Int)),
            startOffset := (if CUR < smi then RLEN + (smi - CUR) else RLEN),
            endOffset := (if CUR < smi then RLEN + (smi - CUR) else RLEN) +
              ((renderBody b.replace).length : Int) }])
          ((if CUR < smi then RLEN + (smi - CUR) else RLEN) +
            ((renderBody b.replace).length : Int))
          (TR ++ [⟨smi, sei, renderBody b.replace⟩])
          hg2 hsei hr2 with
        ⟨m, happm, hrunm⟩ | ⟨R3, C3, T3, G3, L3, happ3, hc3, hr3, hrun3⟩
      · exact Or.inl ⟨m, happ.trans happm, hT.trans hrunm⟩
      · exact Or.inr ⟨R3, C3, T3, G3, L3, happ.trans happ3, hc3, hr3, hT.trans hrun3⟩

theorem applyBlocks_spec (oc : Str) (li : Option LineIndex) (blocks : List SRBlock) :
    ∀ (acc : Str) (cur : Int) (tr : List AppliedBlock) (RES2 : Str) (CUR2 : Int)
      (TR2 : List AppliedBlock),
      applyBlocks oc li acc cur tr blocks = .ok (RES2, CUR2, TR2) →
      ∃ T, TR2 = tr ++ T ∧
        T.map (fun a => a.replaced) = blocks.map (fun b => renderBody b.replace) ∧
        (if CUR2 < (oc.length : Int) then RES2 ++ jsSlice oc CUR2 (oc.length : Int)
          else RES2) = contentOf oc acc cur T := by
  induction blocks with
  | nil =>
    intro acc cur tr RES2 CUR2 TR2 h
    rw [applyBlocks] at h
    simp only [Except.ok.injEq, Prod.mk.injEq] at h
    obtain ⟨h1, h2, h3⟩ := h
    subst h1
    subst h2
    subst h3
    exact ⟨[], by simp, by simp, by rw [contentOf]⟩
  | cons b bs ih =>
    intro acc cur tr RES2 CUR2 TR2 h
    rw [applyBlocks] at h
    cases hres : resolveSearchMatch oc cur (currentSearch b.search) li with
    | error m =>
      rw [hres] at h
      simp at h
    | ok p =>
      obtain ⟨smi, sei⟩ := p
      rw [hres] at h
      obtain ⟨T, hT1, hT2, hT3⟩ := ih _ _ _ _ _ _ h
      refine ⟨⟨smi, sei, renderBody b.replace⟩ :: T, ?_, ?_, ?_⟩
      · rw [hT1]
        simp
      · simp [hT2]
      · rw [contentOf]
        exact hT3

theorem containsSub_after (X Y pat : Str) :
    containsSub (X ++ ('\n' :: (pat ++ Y))) pat = true := by
  rw [show X ++ ('\n' :: (pat ++ Y)) = (X ++ ['\n']) ++ pat ++ Y from by simp]
  exact containsSub_of_mid pat _ _

theorem remainder_contains_search (b1 b2 : SRBlock) (bs : List SRBlock) :
    containsSub (remainingAfterFirstReplace (renderDiff (b1 :: b2 :: bs)))
      markerSearch = true := by
  have hform : renderDiff (b1 :: b2 :: bs) =
      (joinNl (markerSearch :: (b1.search ++ markerSep :: b1.replace)) ++ ['\n']) ++
        markerReplace ++
        ('\n' :: (markerSearch ++ '\n' :: joinNl (b2.search ++
          (markerSep :: (b2.replace ++ [markerReplace])) ++
          ((bs.map blockLines).flatten ++ [[]])))) := by
    rw [renderDiff]
    rw [show diffLinesOf (b1 :: b2 :: bs) =
      ((markerSearch :: (b1.search ++ markerSep :: b1.replace)) ++ [markerReplace]) ++
        (markerSearch :: (b2.search ++ (markerSep :: (b2.replace ++ [markerReplace])) ++
          ((bs.map blockLines).flatten ++ [[]]))) from by
      simp [diffLinesOf, blockLines]]
    rw [joinNl_append_ne _ _ (by simp) (by simp),
      joinNl_append_ne (markerSearch :: (b1.search ++ markerSep :: b1.replace))
        [markerReplace] (by simp) (by simp),
      joinNl_cons_of_ne markerSearch _ (by simp)]
    simp [joinNl, List.append_assoc]
  obtain ⟨m, hm, hmle⟩ := subIndex?_le_prefix markerReplace
    ('\n' :: (markerSearch ++ '\n' :: joinNl (b2.search ++
      (markerSep :: (b2.replace ++ [markerReplace])) ++
      ((bs.map blockLines).flatten ++ [[]]))))
    (joinNl (markerSearch :: (b1.search ++ markerSep :: b1.replace)) ++ ['\n'])
  rw [remainingAfterFirstReplace, hform, hm]
  show containsSub (jsSlice _ ((m : Int) + (markerReplace.length : Int)) _)
    markerSearch = true
  rw [show ((m : Int) + (markerReplace.length : Int)) =
    ((m + markerReplace.length : Nat) : Int) from by push_cast; ring]
  rw [jsSlice_nat_len]
  rw [show (joinNl (markerSearch :: (b1.search ++ markerSep :: b1.replace)) ++ ['\n']) ++
      markerReplace ++
      ('\n' :: (markerSearch ++ '\n' :: joinNl (b2.search ++
        (markerSep :: (b2.replace ++ [markerReplace])) ++
        ((bs.map blockLines).flatten ++ [[]])))) =
    ((joinNl (markerSearch :: (b1.search ++ markerSep :: b1.replace)) ++ ['\n']) ++
      markerReplace) ++
      ('\n' :: (markerSearch ++ '\n' :: joinNl (b2.search ++
        (markerSep :: (b2.replace ++ [markerReplace])) ++
        ((bs.map blockLines).flatten ++ [[]])))) from by simp [List.append_assoc]]
  rw [List.drop_append_of_le_length
    (by simp only [List.length_append] at hmle ⊢; omega)]
  exact containsSub_after _ _ _

theorem c1_epilogue (original : Str) (li : Option LineIndex) (blocks : List SRBlock)
    (res : FileChangeResult) (RES2 : Str) (CUR2 : Int) (TR2 : List AppliedBlock)
    (happ : applyBlocks original li [] 0 [] blocks = .ok (RES2, CUR2, TR2))
    (hcontent : res.content = (if CUR2 < (original.length : Int) then
        RES2 ++ jsSlice original CUR2 (original.length : Int) else RES2))
    (htrace : res.trace = TR2)
    (hord : TraceOrdered original 0 res.trace) :
    res.content = interleave original 0 res.trace ∧
    res.trace.map (fun a => a.replaced) =
      blocks.map (fun b => renderBody b.replace) := by
  obtain ⟨T, hT1, hT2, hT3⟩ :=
    applyBlocks_spec original li blocks [] 0 [] RES2 CUR2 TR2 happ
  rw [List.nil_append] at hT1
  have hordT : TraceOrdered original 0 T := by
    rw [htrace, hT1] at hord
    exact hord
  constructor
  · rw [hcontent, hT3, contentOf_interleave original T [] 0 hordT, htrace, hT1]
    simp
  · rw [htrace, hT1, hT2]

/-- C1: a successful final call on a diff made of well-formed blocks, whose
applied blocks have left-to-right matched ranges inside the original
(`TraceOrdered`), returns exactly the interleaving of the untouched slices
of the original with the replacements: original up to the first match, each
block's rendered replace body in turn, each gap between consecutive matches,
and the tail of the original after the last match; every applied block's
inserted text is its block's rendered replace lines. -/
theorem c1_applied_blocks_concatenation (blocks : List SRBlock) (original : Str)
    (res : FileChangeResult)
    (hgood : ∀ b ∈ blocks, goodBlock b)
    (hrun : constructNewFileContent (renderDiff blocks) original true = .ok res)
    (hord : TraceOrdered original 0 res.trace) :
    res.content = interleave original 0 res.trace ∧
    res.trace.map (fun a => a.replaced) =
      blocks.map (fun b => renderBody b.replace) := by
  cases blocks with
  | nil =>
    rw [constructNewFileContent, if_pos ⟨rfl, by decide⟩] at hrun
    have hres2 : res = {
        content :=
          (if (0 : Int) < (original.length : Int) then
            appendSlice [] original 0 (original.length : Int)
          else []),
        changedRegions := [], trace := [] } := (Except.ok.inj hrun).symm
    subst hres2
    refine ⟨?_, rfl⟩
    show (if (0 : Int) < (original.length : Int) then
        appendSlice [] original 0 (original.length : Int) else []) =
      interleave original 0 []
    rw [interleave]
    by_cases h0 : (0 : Int) < (original.length : Int)
    · rw [if_pos h0, appendSlice, if_pos h0]
      simp
    · rw [if_neg h0]
      rw [show (0 : Int) = (original.length : Int) from by omega, jsSlice_self]
  | cons b1 bs =>
    have hcont := renderDiff_contains_marker (b1 :: bs) b1 bs rfl
    have hpop := renderDiff_nopop (b1 :: bs) hgood
    rw [constructNewFileContent_run _ _ _ hcont hpop] at hrun
    rw [splitNl_renderDiff (b1 :: bs) hgood] at hrun
    rw [show diffLinesOf (b1 :: bs) =
      (((b1 :: bs).map blockLines).flatten ++ [[]] : List Str) from rfl] at hrun
    rw [initPState_clean] at hrun
    by_cases hF : containsSub
        (remainingAfterFirstReplace (renderDiff (b1 :: bs))) markerSearch = false
    · cases bs with
      | cons b2 bs2 =>
        exact absurd (remainder_contains_search b1 b2 bs2)
          (fun hh => by rw [hh] at hF; exact Bool.noConfusion hF)
      | nil =>
        rw [show ((([b1].map blockLines).flatten ++ [[]]) : List Str) =
          blockLines b1 ++ [[]] from by simp] at hrun
        rcases runBlockPrefix
            (⟨renderDiff [b1], original, true,
              if shouldUseIndex original then some (LineIndex.build original)
              else none⟩ : PCtx)
            b1 [[]] [] 0 [] 0 [] (hgood b1 (by simp)) (le_refl 0) with
          ⟨m, hresm, hrunm⟩ | ⟨smi, sei, hres, hsmi, hsei, hrun1⟩
        · rw [hrunm] at hrun
          exact absurd hrun (by simp)
        · have hT := hrun1.trans (runLines_close_finish _ [[]] _
            (show smi ≠ -1 by omega)
            (show (if (0 : Int) < smi then 0 + (smi - 0) else 0) ≠ -1 by
              split_ifs <;> omega) rfl hF)
          rw [hT] at hrun
          have hres2 : res = finishResult
              (⟨renderDiff [b1], original, true,
                if shouldUseIndex original then some (LineIndex.build original)
                else none⟩ : PCtx)
              (closeBlockState
                { result := (if (0 : Int) < smi then
                    [] ++ jsSlice original 0 smi else []) ++ renderBody b1.replace,
                  lastProcessedIndex := 0,
                  changedRegions := [],
                  resultLength := (if (0 : Int) < smi then 0 + (smi - 0) else 0) +
                    ((renderBody b1.replace).length : Int),
                  searchSegments := b1.search,
                  replaceSegments := b1.replace,
                  inSearch := false, inReplace := true,
                  searchMatchIndex := smi, searchEndIndex := sei,
                  replacementStartOffset :=
                    (if (0 : Int) < smi then 0 + (smi - 0) else 0),
                  trace := [], curEmit := renderBody b1.replace }) :=
            (Except.ok.inj hrun).symm
          have hres' : resolveSearchMatch original 0 (currentSearch b1.search)
              (if shouldUseIndex original then some (LineIndex.build original)
                else none) = .ok (smi, sei) := hres
          have happ : applyBlocks original
              (if shouldUseIndex original then some (LineIndex.build original)
                else none) [] 0 [] [b1] =
              .ok ((if (0 : Int) < smi then [] ++ jsSlice original 0 smi else []) ++
                renderBody b1.replace, sei,
                [] ++ [⟨smi, sei, renderBody b1.replace⟩]) := by
            rw [applyBlocks, hres']
            rfl
          refine c1_epilogue original _ [b1] res _ sei _ happ ?_ ?_ hord
          · rw [hres2]
            show (if sei < (original.length : Int) then
                appendSlice ((if (0 : Int) < smi then [] ++ jsSlice original 0 smi
                  else []) ++ renderBody b1.replace) original sei
                  (original.length : Int)
              else ((if (0 : Int) < smi then [] ++ jsSlice original 0 smi
                else []) ++ renderBody b1.replace)) = _
            by_cases hlt : sei < (original.length : Int)
            · rw [if_pos hlt, if_pos hlt, appendSlice, if_pos hlt]
            · rw [if_neg hlt, if_neg hlt]
          · rw [hres2]
            rfl
    · have hfc : (true : Bool) = false ∨ containsSub
          (remainingAfterFirstReplace (renderDiff (b1 :: bs))) markerSearch = true := by
        cases hcc : containsSub
            (remainingAfterFirstReplace (renderDiff (b1 :: bs))) markerSearch with
        | true => exact Or.inr rfl
        | false => exact absurd hcc hF
      rcases runBlocksCont
          (⟨renderDiff (b1 :: bs), original, true,
            if shouldUseIndex original then some (LineIndex.build original)
            else none⟩ : PCtx) hfc (b1 :: bs) [[]] [] 0 [] 0 [] hgood
          (le_refl 0) (le_refl 0) with
        ⟨m, happm, hrunm⟩ | ⟨RES2, CUR2, TR2, REGS2, RLEN2, happ, hc2, hr2, hrunEq⟩
      · rw [hrunm] at hrun
        exact absurd hrun (by simp)
      · rw [hrunEq] at hrun
        have hX : runLines
            (⟨renderDiff (b1 :: bs), original, true,
              if shouldUseIndex original then some (LineIndex.build original)
              else none⟩ : PCtx) [[]] (cleanState RES2 CUR2 REGS2 RLEN2 TR2) =
            .ok (.inl (cleanState RES2 CUR2 REGS2 RLEN2 TR2)) := by
          rw [runLines, stepLine_noop _ _ [] (by decide) (by decide) (by decide)
            rfl rfl]
          rfl
        rw [hX] at hrun
        have hres2 : res = {
            content :=
              (if true = true ∧ CUR2 < (original.length : Int) then
                appendSlice RES2 original CUR2 (original.length : Int)
              else RES2),
            changedRegions := REGS2, trace := TR2 } := (Except.ok.inj hrun).symm
        have happ2 : applyBlocks original
            (if shouldUseIndex original then some (LineIndex.build original)
              else none) [] 0 [] (b1 :: bs) = .ok (RES2, CUR2, TR2) := happ
        refine c1_epilogue original _ (b1 :: bs) res RES2 CUR2 TR2 happ2 ?_ ?_ hord
        · rw [hres2]
          show (if true = true ∧ CUR2 < (original.length : Int) then
              appendSlice RES2 original CUR2 (original.length : Int)
            else RES2) = _
          by_cases hlt : CUR2 < (original.length : Int)
          · rw [if_pos ⟨rfl, hlt⟩, if_pos hlt, appendSlice, if_pos hlt]
          · rw [if_neg (fun hh => hlt hh.2), if_neg hlt]
        · rw [hres2]

theorem c1_applied_blocks_concatenation_witness :
    (({
        content := ("R\nX".data),
        changedRegions :=
          [{ startLine := 0, endLine := 1, startOffset := 0, endOffset := 2 }],
        trace := [⟨0, 3, ("R\n".data)⟩] } : FileChangeResult).content =
      interleave ("ab\nX".data) 0
        ({
          content := ("R\nX".data),
          changedRegions :=
            [{ startLine := 0, endLine := 1, startOffset := 0, endOffset := 2 }],
          trace := [⟨0, 3, ("R\n".data)⟩] } : FileChangeResult).trace ∧
    ({
        content := ("R\nX".data),
        changedRegions :=
          [{ startLine := 0, endLine := 1, startOffset := 0, endOffset := 2 }],
        trace := [⟨0, 3, ("R\n".data)⟩] } : FileChangeResult).trace.map
        (fun a => a.replaced) =
      [({ search := [['a', 'b']], replace := [['R']] } : SRBlock)].map
        (fun b => renderBody b.replace)) :=
  c1_applied_blocks_concatenation
    [({ search := [['a', 'b']], replace := [['R']] } : SRBlock)]
    ("ab\nX".data)
    {
      content := ("R\nX".data),
      changedRegions :=
        [{ startLine := 0, endLine := 1, startOffset := 0, endOffset := 2 }],
      trace := [⟨0, 3, ("R\n".data)⟩] }
    (by
      intro b hb
      rw [List.mem_singleton] at hb
      subst hb
      refine ⟨?_, ?_⟩ <;>
        (intro l hl
         rw [List.mem_singleton] at hl
         subst hl
         exact ⟨by decide, by decide, by decide, by decide⟩))
    (by rfl)
    ⟨by decide, by decide, show (3 : Int) ≤ (("ab\nX".data).length : Int) by decide⟩

end Percy
